import Mathlib

/-!
Verification of the seedify query analyzer (src/analyzer.js).

The analyzer is embedded shallowly over `List Char`:
* SQL query text and all produced strings are `List Char`;
* the JavaScript regular expressions of the source are embedded as
  deterministic scanners.  Every quantifier in the source patterns ranges
  over a character class that is disjoint from the character that has to
  follow it (identifier characters vs `.`/spaces/operators, `\s` vs
  non-space literals, `[^)]` vs `)`), so a greedy scanner without
  backtracking computes exactly the JavaScript match; ordered alternation
  is kept as ordered alternative trial.
* a global regex scan (`exec` in a loop with the `g` flag) is embedded by
  `scanG`: try the pattern at each position from the left, emit the match,
  continue after its last consumed character; on failure advance one
  position.  The character preceding the current position is carried along
  for `\b` word-boundary tests.
* JSON parameter values are embedded by `Value` (integers, strings,
  booleans, null and flat arrays of scalars; nested arrays and non-integer
  numbers do not occur in the analyzed scenarios);
* `analyzeFile` is embedded over the already parsed list of
  `(query, params)` lines; file reading and JSON parsing are outside the
  analyzer core.
-/

/-- Characters the JavaScript `\s` class matches on the ASCII inputs
considered here (space, tab, line feed, vertical tab, form feed,
carriage return). -/
def isJsSpace (c : Char) : Bool :=
  c = ' ' || c = '\t' || c = '\n' || c = '\x0b' || c = '\x0c' || c = '\r'

/-- The character class `[a-zA-Z0-9_]` (JavaScript `\w`, identifier tail). -/
def isWordChar (c : Char) : Bool :=
  (('a' ≤ c && c ≤ 'z') || ('A' ≤ c && c ≤ 'Z') || ('0' ≤ c && c ≤ '9') || c = '_')

/-- The character class `[a-zA-Z_]` (identifier head). -/
def isIdentStart (c : Char) : Bool :=
  (('a' ≤ c && c ≤ 'z') || ('A' ≤ c && c ≤ 'Z') || c = '_')

/-- The character class `\d`. -/
def isDigitChar (c : Char) : Bool :=
  ('0' ≤ c && c ≤ '9')

/-- ASCII lower casing of one character, as `String.prototype.toLowerCase`
acts on the ASCII range. -/
def lowerC (c : Char) : Char :=
  if 'A' ≤ c && c ≤ 'Z' then Char.ofNat (c.toNat + 32) else c

/-- ASCII upper casing of one character. -/
def upperC (c : Char) : Char :=
  if 'a' ≤ c && c ≤ 'z' then Char.ofNat (c.toNat - 32) else c

/-- `toLowerCase` on a string. -/
def lowerS (s : List Char) : List Char := s.map lowerC

/-- The single quote character, kept symbolic so that no quote literal
appears in the development. -/
def sqc : Char := Char.ofNat 39

/-- JavaScript string comparison (`<` on strings): lexicographic over
UTF-16 code units, a strict prefix preceding its extensions.  `lexLe a b`
is `a <= b` in that order. -/
def lexLe : List Char → List Char → Bool
  | [], _ => true
  | _ :: _, [] => false
  | a :: as, b :: bs =>
    if a < b then true
    else if b < a then false
    else lexLe as bs

theorem lexLe_refl (a : List Char) : lexLe a a = true := by
  induction a with
  | nil => rfl
  | cons c cs ih => simp [lexLe, ih]

theorem lexLe_total (a b : List Char) : lexLe a b = true ∨ lexLe b a = true := by
  induction a generalizing b with
  | nil => exact Or.inl rfl
  | cons c cs ih =>
    cases b with
    | nil => exact Or.inr rfl
    | cons d ds =>
      by_cases h1 : c < d
      · exact Or.inl (by simp [lexLe, h1])
      · by_cases h2 : d < c
        · exact Or.inr (by simp [lexLe, h2])
        · rcases ih ds with h | h
          · exact Or.inl (by simp [lexLe, h1, h2, h])
          · exact Or.inr (by simp [lexLe, h1, h2, h])

theorem lexLe_antisymm {a b : List Char} (h1 : lexLe a b = true)
    (h2 : lexLe b a = true) : a = b := by
  induction a generalizing b with
  | nil =>
    cases b with
    | nil => rfl
    | cons d ds => simp [lexLe] at h2
  | cons c cs ih =>
    cases b with
    | nil => simp [lexLe] at h1
    | cons d ds =>
      by_cases hcd : c < d
      · simp [lexLe, hcd, lt_asymm hcd] at h2
      · by_cases hdc : d < c
        · simp [lexLe, hcd, hdc] at h1
        · have hv : c = d := le_antisymm (not_lt.mp hdc) (not_lt.mp hcd)
          subst hv
          simp only [lexLe, lt_irrefl, if_false] at h1 h2
          exact congrArg (c :: ·) (ih h1 h2)

theorem lexLe_trans {a b c : List Char} (h1 : lexLe a b = true)
    (h2 : lexLe b c = true) : lexLe a c = true := by
  induction a generalizing b c with
  | nil => rfl
  | cons x xs ih =>
    cases b with
    | nil => simp [lexLe] at h1
    | cons y ys =>
      cases c with
      | nil => simp [lexLe] at h2
      | cons z zs =>
        simp only [lexLe] at h1 h2 ⊢
        by_cases hxy : x < y
        · by_cases hyz : y < z
          · simp [lt_trans hxy hyz]
          · by_cases hzy : z < y
            · simp [hyz, hzy] at h2
            · have hv : y = z := le_antisymm (not_lt.mp hzy) (not_lt.mp hyz)
              simp [hv ▸ hxy]
        · by_cases hyx : y < x
          · simp [hxy, hyx] at h1
          · have hxy2 : x = y := le_antisymm (not_lt.mp hyx) (not_lt.mp hxy)
            subst hxy2
            by_cases hyz : x < z
            · simp [hyz]
            · by_cases hzy : z < x
              · simp [hyz, hzy] at h2
              · simp only [lt_self_iff_false, if_false] at h1
                simp only [hyz, hzy, if_false, if_neg] at h2 ⊢
                exact ih h1 h2

/-- A scalar JSON value as it appears in a `params` entry: an integer
number, a string, a boolean or null. -/
inductive Scalar where
  | num (n : Int)
  | str (s : List Char)
  | bool (b : Bool)
  | snull
deriving DecidableEq, Repr

/-- A JSON value in a `params` array: a scalar or a flat array of scalars
(the shape `= ANY($1)` parameters take). -/
inductive Value where
  | scalar (v : Scalar)
  | arr (vs : List Scalar)
deriving DecidableEq, Repr

/-- Decimal digits of a natural number (fuel-based so that the kernel
reduces it). -/
def natCharsAux : Nat → Nat → List Char
  | 0, _ => []
  | fuel + 1, n =>
    if n < 10 then [Char.ofNat (48 + n)]
    else natCharsAux fuel (n / 10) ++ [Char.ofNat (48 + n % 10)]

/-- Decimal representation of a natural number. -/
def natChars (n : Nat) : List Char := natCharsAux (n + 1) n

/-- Decimal representation of an integer, as JavaScript `String(n)`
renders an integral number. -/
def intChars : Int → List Char
  | Int.ofNat n => natChars n
  | Int.negSucc n => '-' :: natChars (n + 1)

/-- JavaScript `String(v)` for a scalar. -/
def scalarChars : Scalar → List Char
  | Scalar.num n => intChars n
  | Scalar.str s => s
  | Scalar.bool true => ("true").toList
  | Scalar.bool false => ("false").toList
  | Scalar.snull => ("null").toList

/-- JavaScript `String(v)`: arrays are joined with commas. -/
def jsToString : Value → List Char
  | Value.scalar v => scalarChars v
  | Value.arr vs => List.intercalate [','] (vs.map scalarChars)

/-- The comparison JavaScript `Array.prototype.sort()` uses by default:
elements compared as strings. -/
def valLe (a b : Value) : Prop := lexLe (jsToString a) (jsToString b) = true

instance : DecidableRel valLe := fun a b =>
  inferInstanceAs (Decidable (lexLe (jsToString a) (jsToString b) = true))

instance : IsTotal Value valLe := ⟨fun a b => lexLe_total _ _⟩

instance : IsTrans Value valLe := ⟨fun _ _ _ => lexLe_trans⟩

/-- `Array.from(set).sort()` on values: a stable sort by the default
string comparison (insertion sort is stable and JavaScript `sort` is
stable). -/
def sortValues (l : List Value) : List Value := List.insertionSort valLe l

/-- String order, as a relation for sorting table names. -/
def strLe (a b : List Char) : Prop := lexLe a b = true

instance : DecidableRel strLe := fun a b =>
  inferInstanceAs (Decidable (lexLe a b = true))

instance : IsTotal (List Char) strLe := ⟨fun a b => lexLe_total _ _⟩

instance : IsTrans (List Char) strLe := ⟨fun _ _ _ => lexLe_trans⟩

instance : IsAntisymm (List Char) strLe := ⟨fun _ _ => lexLe_antisymm⟩

/-- `Array.from(set).sort()` on table names. -/
def sortStrings (l : List (List Char)) : List (List Char) := List.insertionSort strLe l

/-- JavaScript `Set.prototype.add`: append the element if it is not yet a
member, keeping insertion order. -/
def setAdd {α : Type} [DecidableEq α] (l : List α) (x : α) : List α :=
  if x ∈ l then l else l ++ [x]

theorem setAdd_nodup {α : Type} [DecidableEq α] {l : List α} (h : l.Nodup) (x : α) :
    (setAdd l x).Nodup := by
  unfold setAdd
  split
  · exact h
  · next hx => simpa [List.nodup_append, h] using hx

theorem mem_setAdd {α : Type} [DecidableEq α] {l : List α} {x y : α} :
    y ∈ setAdd l x ↔ y ∈ l ∨ y = x := by
  unfold setAdd
  split
  · next hx =>
    constructor
    · exact Or.inl
    · rintro (h | rfl) <;> [exact h; exact hx]
  · simp [List.mem_append]

theorem mem_foldl_setAdd {α : Type} [DecidableEq α] (l : List α) (init : List α) (y : α) :
    y ∈ l.foldl setAdd init ↔ y ∈ init ∨ y ∈ l := by
  induction l generalizing init with
  | nil => simp
  | cons c cs ih =>
    simp only [List.foldl_cons, ih, mem_setAdd, List.mem_cons]
    tauto

theorem nodup_foldl_setAdd {α : Type} [DecidableEq α] (l : List α) {init : List α}
    (h : init.Nodup) : (l.foldl setAdd init).Nodup := by
  induction l generalizing init with
  | nil => exact h
  | cons c cs ih => exact ih (setAdd_nodup h c)

/-- A `\b` test between the previous character and a word character at
the current position: satisfied at the start of the string or after a
non-word character. -/
def wordBoundary : Option Char → Bool
  | none => true
  | some c => !isWordChar c

/-- A `\b` test after a word character, at the position in front of the
given rest of the input. -/
def endWordBoundary : List Char → Bool
  | [] => true
  | c :: _ => !isWordChar c

/-- Consume one expected character. -/
def eatChar (c : Char) : List Char → Option (List Char)
  | [] => none
  | x :: xs => if x = c then some xs else none

/-- Consume an exact literal. -/
def eatLit : List Char → List Char → Option (List Char)
  | [], s => some s
  | _ :: _, [] => none
  | l :: ls, c :: cs => if c = l then eatLit ls cs else none

/-- Consume a literal case-insensitively (the `i` regex flag). -/
def eatLitCI : List Char → List Char → Option (List Char)
  | [], s => some s
  | _ :: _, [] => none
  | l :: ls, c :: cs => if lowerC c = lowerC l then eatLitCI ls cs else none

/-- Split off the longest prefix satisfying `p` (greedy `X*` over a
character class). -/
def takeWhileSplit (p : Char → Bool) : List Char → List Char × List Char
  | [] => ([], [])
  | c :: cs =>
    if p c then
      let (t, r) := takeWhileSplit p cs
      (c :: t, r)
    else ([], c :: cs)

/-- Greedy `X+` over a character class: at least one character. -/
def takeWhile1 (p : Char → Bool) (s : List Char) : Option (List Char × List Char) :=
  match s with
  | [] => none
  | c :: cs =>
    if p c then
      let (t, r) := takeWhileSplit p cs
      some (c :: t, r)
    else none

/-- The pattern `[a-zA-Z_][a-zA-Z0-9_]*`. -/
def takeIdent (s : List Char) : Option (List Char × List Char) :=
  match s with
  | [] => none
  | c :: cs =>
    if isIdentStart c then
      let (t, r) := takeWhileSplit isWordChar cs
      some (c :: t, r)
    else none

/-- The pattern `\s+`. -/
def eatSpaces1 (s : List Char) : Option (List Char) :=
  (takeWhile1 isJsSpace s).map (·.2)

/-- The pattern `\s*`. -/
def eatSpaces0 (s : List Char) : List Char :=
  (takeWhileSplit isJsSpace s).2

/-- The pattern `\d+`. -/
def takeDigits1 (s : List Char) : Option (List Char × List Char) :=
  takeWhile1 isDigitChar s

/-- `parseInt` on a digit string. -/
def natOfDigits (ds : List Char) : Nat :=
  ds.foldl (fun a c => a * 10 + (c.toNat - 48)) 0

/-- Fuel-based worker of `scanG`; the fuel is an upper bound on the
number of remaining positions, so it never runs out when started with the
input length. -/
def scanGAux {α : Type} (m : Option Char → List Char → Option (α × List Char)) :
    Nat → Option Char → List Char → List α
  | 0, _, _ => []
  | _ + 1, _, [] => []
  | fuel + 1, prev, c :: cs =>
    match m prev (c :: cs) with
    | none => scanGAux m fuel (some c) cs
    | some (a, rest) =>
      let n := (c :: cs).length - rest.length
      a :: scanGAux m fuel ((c :: cs)[n - 1]?) ((c :: cs).drop (max n 1))

/-- Global regex scan (`exec` with the `g` flag in a loop): try the
matcher at every position from left to right; after a successful match
continue directly behind its last consumed character, otherwise advance
one position.  `prev` is the character in front of the current position,
for `\b` tests. -/
def scanG {α : Type} (m : Option Char → List Char → Option (α × List Char))
    (prev : Option Char) (s : List Char) : List α :=
  scanGAux m s.length prev s

/-- The sub-pattern `\$(\d+)`: a placeholder, returning its number. -/
def matchDollarNum (s : List Char) : Option (Nat × List Char) := do
  let r1 ← eatChar '$' s
  let (ds, r2) ← takeDigits1 r1
  pure (natOfDigits ds, r2)

/-- The sub-pattern `\s*=\s*\$(\d+)`. -/
def matchEqDollar (s : List Char) : Option (Nat × List Char) := do
  let r1 ← eatChar '=' (eatSpaces0 s)
  matchDollarNum (eatSpaces0 r1)

/-- The sub-pattern `\s+KW\s+` (a keyword between mandatory spaces). -/
def eatSpacedKw (kw : List Char) (s : List Char) : Option (List Char) := do
  let r1 ← eatSpaces1 s
  let r2 ← eatLitCI kw r1
  eatSpaces1 r2

/-- The sub-pattern `\(([^)]+)\)`, capturing the inner text. -/
def matchParenInner (s : List Char) : Option (List Char × List Char) := do
  let r1 ← eatChar '(' s
  let (inner, r2) ← takeWhile1 (· != ')') r1
  let r3 ← eatChar ')' r2
  pure (inner, r3)

/-- Matcher for pattern 1, `\b([a-zA-Z_][a-zA-Z0-9_]*)\s*=\s*\$(\d+)`:
captures (column, parameter number). -/
def simpleEqualAt (prev : Option Char) (s : List Char) :
    Option ((List Char × Nat) × List Char) := do
  guard (wordBoundary prev)
  let (col, r1) ← takeIdent s
  let (n, r2) ← matchEqDollar r1
  pure ((col, n), r2)

/-- Matcher for pattern 2,
`\b([a-zA-Z_][a-zA-Z0-9_]*)\.([a-zA-Z_][a-zA-Z0-9_]*)\s*=\s*\$(\d+)`.
After the consumed `.` the rest of the pattern is exactly pattern 1 (the
`\b` in front of the column holds because `.` is a non-word character),
so the matcher delegates. -/
def tableEqualAt (prev : Option Char) (s : List Char) :
    Option ((List Char × List Char × Nat) × List Char) := do
  guard (wordBoundary prev)
  let (tab, r1) ← takeIdent s
  let r2 ← eatChar '.' r1
  let ((col, n), r3) ← simpleEqualAt (some '.') r2
  pure ((tab, col, n), r3)

/-- Matcher for pattern 3, `\b([a-zA-Z_][a-zA-Z0-9_]*)\s+IN\s*\(([^)]+)\)`:
captures (column, text inside the parentheses). -/
def simpleInAt (prev : Option Char) (s : List Char) :
    Option ((List Char × List Char) × List Char) := do
  guard (wordBoundary prev)
  let (col, r1) ← takeIdent s
  let r2 ← eatSpaces1 r1
  let r3 ← eatLitCI (("in").toList) r2
  let (inner, r4) ← matchParenInner (eatSpaces0 r3)
  pure ((col, inner), r4)

/-- Matcher for pattern 4, the table-qualified `IN` membership
(delegating like `tableEqualAt`). -/
def tableInAt (prev : Option Char) (s : List Char) :
    Option ((List Char × List Char × List Char) × List Char) := do
  guard (wordBoundary prev)
  let (tab, r1) ← takeIdent s
  let r2 ← eatChar '.' r1
  let ((col, inner), r3) ← simpleInAt (some '.') r2
  pure ((tab, col, inner), r3)

/-- Matcher for `\b([a-zA-Z_][a-zA-Z0-9_]*)\s*=\s*ANY\s*\(\s*\$(\d+)\s*\)`. -/
def simpleAnyAt (prev : Option Char) (s : List Char) :
    Option ((List Char × Nat) × List Char) := do
  guard (wordBoundary prev)
  let (col, r1) ← takeIdent s
  let r2 ← eatChar '=' (eatSpaces0 r1)
  let r3 ← eatLitCI (("any").toList) (eatSpaces0 r2)
  let r4 ← eatChar '(' (eatSpaces0 r3)
  let (n, r5) ← matchDollarNum (eatSpaces0 r4)
  let r6 ← eatChar ')' (eatSpaces0 r5)
  pure ((col, n), r6)

/-- Matcher for the table-qualified `= ANY($N)` pattern (delegating). -/
def tableAnyAt (prev : Option Char) (s : List Char) :
    Option ((List Char × List Char × Nat) × List Char) := do
  guard (wordBoundary prev)
  let (tab, r1) ← takeIdent s
  let r2 ← eatChar '.' r1
  let ((col, n), r3) ← simpleAnyAt (some '.') r2
  pure ((tab, col, n), r3)

/-- Ordered alternation `(>=|<=|<>|!=|>|<)`, tried left to right as the
regex engine does. -/
def matchCompareOp (s : List Char) : Option (List Char × List Char) :=
  match eatLit ((">=").toList) s with
  | some r => some ((">=").toList, r)
  | none =>
  match eatLit (("<=").toList) s with
  | some r => some (("<=").toList, r)
  | none =>
  match eatLit (("<>").toList) s with
  | some r => some (("<>").toList, r)
  | none =>
  match eatLit (("!=").toList) s with
  | some r => some (("!=").toList, r)
  | none =>
  match eatLit ((">").toList) s with
  | some r => some ((">").toList, r)
  | none =>
  match eatLit (("<").toList) s with
  | some r => some (("<").toList, r)
  | none => none

/-- Matcher for `\b([a-zA-Z_][a-zA-Z0-9_]*)\s*(>=|<=|<>|!=|>|<)\s*\$(\d+)`:
captures (column, operator text, parameter number). -/
def simpleCompareAt (prev : Option Char) (s : List Char) :
    Option ((List Char × List Char × Nat) × List Char) := do
  guard (wordBoundary prev)
  let (col, r1) ← takeIdent s
  let (op, r2) ← matchCompareOp (eatSpaces0 r1)
  let (n, r3) ← matchDollarNum (eatSpaces0 r2)
  pure ((col, op, n), r3)

/-- Matcher for the table-qualified comparison pattern (delegating). -/
def tableCompareAt (prev : Option Char) (s : List Char) :
    Option ((List Char × List Char × List Char × Nat) × List Char) := do
  guard (wordBoundary prev)
  let (tab, r1) ← takeIdent s
  let r2 ← eatChar '.' r1
  let ((col, op, n), r3) ← simpleCompareAt (some '.') r2
  pure ((tab, col, op, n), r3)

/-- Matcher for
`\b([a-zA-Z_][a-zA-Z0-9_]*)\s+BETWEEN\s+\$(\d+)\s+AND\s+\$(\d+)`:
captures (column, first parameter number, second parameter number). -/
def simpleBetweenAt (prev : Option Char) (s : List Char) :
    Option ((List Char × Nat × Nat) × List Char) := do
  guard (wordBoundary prev)
  let (col, r1) ← takeIdent s
  let r2 ← eatSpacedKw (("between").toList) r1
  let (n1, r3) ← matchDollarNum r2
  let r4 ← eatSpacedKw (("and").toList) r3
  let (n2, r5) ← matchDollarNum r4
  pure ((col, n1, n2), r5)

/-- Matcher for the table-qualified `BETWEEN` pattern (delegating). -/
def tableBetweenAt (prev : Option Char) (s : List Char) :
    Option ((List Char × List Char × Nat × Nat) × List Char) := do
  guard (wordBoundary prev)
  let (tab, r1) ← takeIdent s
  let r2 ← eatChar '.' r1
  let ((col, n1, n2), r3) ← simpleBetweenAt (some '.') r2
  pure ((tab, col, n1, n2), r3)

/-- Ordered alternation `(LIKE|ILIKE)`; the source upper-cases the
captured text, so the canonical upper-case operator is returned. -/
def matchLikeOp (s : List Char) : Option (List Char × List Char) :=
  match eatLitCI (("like").toList) s with
  | some r => some ((("LIKE").toList), r)
  | none =>
  match eatLitCI (("ilike").toList) s with
  | some r => some ((("ILIKE").toList), r)
  | none => none

/-- Matcher for `\b([a-zA-Z_][a-zA-Z0-9_]*)\s+(LIKE|ILIKE)\s*\$(\d+)`. -/
def simpleLikeAt (prev : Option Char) (s : List Char) :
    Option ((List Char × List Char × Nat) × List Char) := do
  guard (wordBoundary prev)
  let (col, r1) ← takeIdent s
  let r2 ← eatSpaces1 r1
  let (op, r3) ← matchLikeOp r2
  let (n, r4) ← matchDollarNum (eatSpaces0 r3)
  pure ((col, op, n), r4)

/-- Matcher for the table-qualified `LIKE`/`ILIKE` pattern (delegating). -/
def tableLikeAt (prev : Option Char) (s : List Char) :
    Option ((List Char × List Char × List Char × Nat) × List Char) := do
  guard (wordBoundary prev)
  let (tab, r1) ← takeIdent s
  let r2 ← eatChar '.' r1
  let ((col, op, n), r3) ← simpleLikeAt (some '.') r2
  pure ((tab, col, op, n), r3)

/-- Matcher for `\b([a-zA-Z_][a-zA-Z0-9_]*)\s+NOT\s+IN\s*\(([^)]+)\)`. -/
def simpleNotInAt (prev : Option Char) (s : List Char) :
    Option ((List Char × List Char) × List Char) := do
  guard (wordBoundary prev)
  let (col, r1) ← takeIdent s
  let r2 ← eatSpaces1 r1
  let r3 ← eatLitCI (("not").toList) r2
  let r4 ← eatSpaces1 r3
  let r5 ← eatLitCI (("in").toList) r4
  let (inner, r6) ← matchParenInner (eatSpaces0 r5)
  pure ((col, inner), r6)

/-- Matcher for the table-qualified `NOT IN` pattern (delegating). -/
def tableNotInAt (prev : Option Char) (s : List Char) :
    Option ((List Char × List Char × List Char) × List Char) := do
  guard (wordBoundary prev)
  let (tab, r1) ← takeIdent s
  let r2 ← eatChar '.' r1
  let ((col, inner), r3) ← simpleNotInAt (some '.') r2
  pure ((tab, col, inner), r3)

/-- Ordered alternation `(IS\s+NOT\s+NULL|IS\s+NULL)` followed by `\b`.
The source upper-cases the capture and collapses its whitespace, so the
canonical operator text is returned. -/
def matchIsNullOp (s : List Char) : Option (List Char × List Char) :=
  match (do
    let r1 ← eatLitCI (("is").toList) s
    let r2 ← eatSpaces1 r1
    let r3 ← eatLitCI (("not").toList) r2
    let r4 ← eatSpaces1 r3
    let r5 ← eatLitCI (("null").toList) r4
    guard (endWordBoundary r5)
    pure ((("IS NOT NULL").toList), r5) : Option (List Char × List Char)) with
  | some r => some r
  | none =>
    (do
      let r1 ← eatLitCI (("is").toList) s
      let r2 ← eatSpaces1 r1
      let r3 ← eatLitCI (("null").toList) r2
      guard (endWordBoundary r3)
      pure ((("IS NULL").toList), r3) : Option (List Char × List Char))

/-- Matcher for `\b([a-zA-Z_][a-zA-Z0-9_]*)\s+(IS\s+NOT\s+NULL|IS\s+NULL)\b`. -/
def simpleIsNullAt (prev : Option Char) (s : List Char) :
    Option ((List Char × List Char) × List Char) := do
  guard (wordBoundary prev)
  let (col, r1) ← takeIdent s
  let r2 ← eatSpaces1 r1
  let (op, r3) ← matchIsNullOp r2
  pure ((col, op), r3)

/-- Matcher for the table-qualified `IS NULL`/`IS NOT NULL` pattern
(delegating). -/
def tableIsNullAt (prev : Option Char) (s : List Char) :
    Option ((List Char × List Char × List Char) × List Char) := do
  guard (wordBoundary prev)
  let (tab, r1) ← takeIdent s
  let r2 ← eatChar '.' r1
  let ((col, op), r3) ← simpleIsNullAt (some '.') r2
  pure ((tab, col, op), r3)

/-- Matcher for
`\b([a-zA-Z_][a-zA-Z0-9_]*)\.([a-zA-Z_][a-zA-Z0-9_]*)\s*=\s*(\d+)\b`:
captures (table, column, literal integer). -/
def literalAt (prev : Option Char) (s : List Char) :
    Option ((List Char × List Char × Nat) × List Char) := do
  guard (wordBoundary prev)
  let (tab, r1) ← takeIdent s
  let r2 ← eatChar '.' r1
  let (col, r3) ← takeIdent r2
  let r4 ← eatChar '=' (eatSpaces0 r3)
  let (ds, r5) ← takeDigits1 (eatSpaces0 r4)
  guard (endWordBoundary r5)
  pure ((tab, col, natOfDigits ds), r5)

/-- Matcher for
`\b([a-zA-Z_][a-zA-Z0-9_]*)\.([a-zA-Z_][a-zA-Z0-9_]*)\s*=\s*'([^']+)'`:
captures (table, column, string literal content). -/
def stringLiteralAt (prev : Option Char) (s : List Char) :
    Option ((List Char × List Char × List Char) × List Char) := do
  guard (wordBoundary prev)
  let (tab, r1) ← takeIdent s
  let r2 ← eatChar '.' r1
  let (col, r3) ← takeIdent r2
  let r4 ← eatChar '=' (eatSpaces0 r3)
  let r5 ← eatChar sqc (eatSpaces0 r4)
  let (content, r6) ← takeWhile1 (· != sqc) r5
  let r7 ← eatChar sqc r6
  pure ((tab, col, content), r7)

/-- Matcher for a table-reference pattern: a keyword sequence (each word
followed by `\s+`), then `([a-zA-Z_][a-zA-Z0-9_]*(?:\.[a-zA-Z_][a-zA-Z0-9_]*)?)`.
Captures the possibly schema-qualified name. -/
def eatKeywordSeq : List (List Char) → List Char → Option (List Char)
  | [], s => some s
  | kw :: kws, s =>
    match eatLitCI kw s with
    | none => none
    | some r1 =>
      match eatSpaces1 r1 with
      | none => none
      | some r2 => eatKeywordSeq kws r2

/-- The optionally schema-qualified identifier capture of the
table-reference patterns (the `(?:\.ident)?` group is greedy). -/
def takeQualIdent (s : List Char) : Option (List Char × List Char) :=
  match takeIdent s with
  | none => none
  | some (id1, r1) =>
    match r1 with
    | '.' :: r2 =>
      match takeIdent r2 with
      | some (id2, r3) => some (id1 ++ '.' :: id2, r3)
      | none => some (id1, r1)
    | _ => some (id1, r1)

/-- Matcher for one table-reference pattern given its keyword sequence. -/
def tableNameAt (kws : List (List Char)) (prev : Option Char) (s : List Char) :
    Option (List Char × List Char) :=
  if wordBoundary prev then
    match eatKeywordSeq kws s with
    | none => none
    | some r1 => takeQualIdent r1
  else none

theorem takeWhileSplit_append (p : Char → Bool) (l : List Char) :
    (takeWhileSplit p l).1 ++ (takeWhileSplit p l).2 = l := by
  induction l with
  | nil => rfl
  | cons c cs ih =>
    by_cases h : p c
    · simp [takeWhileSplit, h, ih]
    · simp [takeWhileSplit, h]

theorem takeWhileSplit_snd_length (p : Char → Bool) (l : List Char) :
    (takeWhileSplit p l).2.length ≤ l.length := by
  conv_rhs => rw [← takeWhileSplit_append p l]
  simp

theorem takeWhile1_some_length {p : Char → Bool} {s t r : List Char}
    (h : takeWhile1 p s = some (t, r)) : r.length < s.length := by
  cases s with
  | nil => simp [takeWhile1] at h
  | cons c cs =>
    by_cases hp : p c
    · simp only [takeWhile1, hp, if_true, Option.some.injEq, Prod.mk.injEq] at h
      have := takeWhileSplit_snd_length p cs
      simp [← h.2, List.length_cons]
      omega
    · simp [takeWhile1, hp] at h

/-- Helper of `collapseWs`: the flag records whether the previous input
character was whitespace (already represented by an emitted space). -/
def collapseWsAux : Bool → List Char → List Char
  | _, [] => []
  | inSpace, c :: cs =>
    if isJsSpace c then
      if inSpace then collapseWsAux true cs
      else ' ' :: collapseWsAux true cs
    else c :: collapseWsAux false cs

/-- `replace(/\s+/g, ' ')`: collapse every whitespace run to one space. -/
def collapseWs (s : List Char) : List Char := collapseWsAux false s

/-- `trim()` after the collapse (only plain spaces remain then). -/
def trimSpaces (s : List Char) : List Char :=
  ((s.dropWhile (· = ' ')).reverse.dropWhile (· = ' ')).reverse

/-- `query.replace(/\s+/g, ' ').trim()`. -/
def normalizeWs (s : List Char) : List Char :=
  trimSpaces (collapseWs s)

/-- The fixed reserved-word list of `isKeyword`. -/
def keywordList : List (List Char) :=
  [("select").toList, ("where").toList, ("and").toList, ("or").toList,
   ("not").toList, ("null").toList, ("true").toList, ("false").toList,
   ("order").toList, ("group").toList, ("having").toList, ("limit").toList,
   ("offset").toList, ("union").toList, ("intersect").toList,
   ("except").toList, ("case").toList, ("when").toList, ("then").toList,
   ("else").toList, ("end").toList, ("as").toList, ("on").toList,
   ("lateral").toList, ("recursive").toList, ("with").toList,
   ("values").toList, ("returning").toList, ("set").toList]

/-- `isKeyword` from the source: membership of the lower-cased word in the
fixed reserved-word set. -/
def isKeyword (word : List Char) : Bool :=
  keywordList.contains (lowerS word)

/-- The concatenated match lists of the five table-reference patterns, in
source order (FROM, JOIN, INTO, UPDATE, DELETE FROM). -/
def tableRefMatches (norm : List Char) : List (List Char) :=
  scanG (tableNameAt [("from").toList]) none norm
    ++ scanG (tableNameAt [("join").toList]) none norm
    ++ scanG (tableNameAt [("into").toList]) none norm
    ++ scanG (tableNameAt [("update").toList]) none norm
    ++ scanG (tableNameAt [("delete").toList, ("from").toList]) none norm

/-- `extractTableNames` from the source: normalize, run the five patterns,
lower-case each match and collect it into a set unless it is a reserved
word. -/
def tblCollect (acc : List (List Char)) (m : List Char) : List (List Char) :=
  let t := lowerS m
  if isKeyword t then acc else setAdd acc t

def extractTableNames (query : List Char) : List (List Char) :=
  (tableRefMatches (normalizeWs query)).foldl tblCollect []

/-- Fuel-based worker of `scanDollars`. -/
def scanDollarsAux : Nat → List Char → List Nat
  | 0, _ => []
  | _ + 1, [] => []
  | fuel + 1, c :: cs =>
    if c = '$' then
      match takeDigits1 cs with
      | some (ds, rest) => natOfDigits ds :: scanDollarsAux fuel rest
      | none => scanDollarsAux fuel cs
    else scanDollarsAux fuel cs

/-- The secondary scan `paramsStr.match(/\$(\d+)/g)` inside an `IN` list:
every `$digits` occurrence, in order. -/
def scanDollars (s : List Char) : List Nat :=
  scanDollarsAux s.length s

/-- `params[n - 1]` for the 1-based placeholder number `n`; `none` is
JavaScript `undefined` (out of range). -/
def resolveParam (params : List Value) (n : Nat) : Option Value :=
  if n = 0 then none else params[n - 1]?

/-- One extracted condition record.  A JavaScript object without an
`operator` property is embedded with `operator := none`. -/
structure Cond where
  table : Option (List Char)
  column : List Char
  operator : Option (List Char)
  values : List Value
deriving DecidableEq, Repr

/-- Condition pushed for one match of pattern 1 (`column = $N`): nothing
when the placeholder does not resolve. -/
def emitSimpleEqual (params : List Value) (m : List Char × Nat) : List Cond :=
  match resolveParam params m.2 with
  | some v => [{ table := none, column := lowerS m.1, operator := none, values := [v] }]
  | none => []

/-- Stage of pattern 1 (`column = $N`). -/
def stageSimpleEqual (norm : List Char) (params : List Value) : List Cond :=
  (scanG simpleEqualAt none norm).foldl (fun acc m => acc ++ emitSimpleEqual params m) []

/-- Condition pushed for one match of pattern 2 (`table.column = $N`). -/
def emitTableEqual (params : List Value) (m : List Char × List Char × Nat) : List Cond :=
  match resolveParam params m.2.2 with
  | some v => [{ table := some (lowerS m.1), column := lowerS m.2.1,
                 operator := none, values := [v] }]
  | none => []

/-- Stage of pattern 2 (`table.column = $N`). -/
def stageTableEqual (norm : List Char) (params : List Value) : List Cond :=
  (scanG tableEqualAt none norm).foldl (fun acc m => acc ++ emitTableEqual params m) []

/-- Condition pushed for one match of pattern 3 (`column IN (...)`): scan
the parenthesized text for `$digits`, resolve each, drop unresolved ones,
emit only when values remain.  No operator property is set by the source
here. -/
def emitSimpleIn (params : List Value) (m : List Char × List Char) : List Cond :=
  let ds := scanDollars m.2
  if ds = [] then []
  else
    let vals := ds.filterMap (resolveParam params)
    if vals = [] then []
    else [{ table := none, column := lowerS m.1, operator := none, values := vals }]

/-- Stage of pattern 3 (`column IN (...)`). -/
def stageSimpleIn (norm : List Char) (params : List Value) : List Cond :=
  (scanG simpleInAt none norm).foldl (fun acc m => acc ++ emitSimpleIn params m) []

/-- Condition pushed for one match of pattern 4 (`table.column IN (...)`). -/
def emitTableIn (params : List Value) (m : List Char × List Char × List Char) : List Cond :=
  let ds := scanDollars m.2.2
  if ds = [] then []
  else
    let vals := ds.filterMap (resolveParam params)
    if vals = [] then []
    else [{ table := some (lowerS m.1), column := lowerS m.2.1,
            operator := none, values := vals }]

/-- Stage of pattern 4 (`table.column IN (...)`). -/
def stageTableIn (norm : List Char) (params : List Value) : List Cond :=
  (scanG tableInAt none norm).foldl (fun acc m => acc ++ emitTableIn params m) []

/-- Condition pushed for one `column = ANY($N)` match: an array parameter
is flattened, a scalar is wrapped. -/
def emitSimpleAny (params : List Value) (m : List Char × Nat) : List Cond :=
  match resolveParam params m.2 with
  | some (Value.arr vs) =>
      [{ table := none, column := lowerS m.1, operator := none,
         values := vs.map Value.scalar }]
  | some (Value.scalar v) =>
      [{ table := none, column := lowerS m.1, operator := none,
         values := [Value.scalar v] }]
  | none => []

/-- Stage of `column = ANY($N)`. -/
def stageSimpleAny (norm : List Char) (params : List Value) : List Cond :=
  (scanG simpleAnyAt none norm).foldl (fun acc m => acc ++ emitSimpleAny params m) []

/-- Condition pushed for one `table.column = ANY($N)` match. -/
def emitTableAny (params : List Value) (m : List Char × List Char × Nat) : List Cond :=
  match resolveParam params m.2.2 with
  | some (Value.arr vs) =>
      [{ table := some (lowerS m.1), column := lowerS m.2.1, operator := none,
         values := vs.map Value.scalar }]
  | some (Value.scalar v) =>
      [{ table := some (lowerS m.1), column := lowerS m.2.1, operator := none,
         values := [Value.scalar v] }]
  | none => []

/-- Stage of `table.column = ANY($N)`. -/
def stageTableAny (norm : List Char) (params : List Value) : List Cond :=
  (scanG tableAnyAt none norm).foldl (fun acc m => acc ++ emitTableAny params m) []

/-- Condition pushed for one comparison match: the operator is kept
verbatim. -/
def emitSimpleCompare (params : List Value) (m : List Char × List Char × Nat) : List Cond :=
  match resolveParam params m.2.2 with
  | some v => [{ table := none, column := lowerS m.1,
                 operator := some m.2.1, values := [v] }]
  | none => []

/-- Stage of `column (>=|<=|<>|!=|>|<) $N`. -/
def stageSimpleCompare (norm : List Char) (params : List Value) : List Cond :=
  (scanG simpleCompareAt none norm).foldl (fun acc m => acc ++ emitSimpleCompare params m) []

/-- Condition pushed for one table-qualified comparison match. -/
def emitTableCompare (params : List Value) (m : List Char × List Char × List Char × Nat) :
    List Cond :=
  match resolveParam params m.2.2.2 with
  | some v => [{ table := some (lowerS m.1), column := lowerS m.2.1,
                 operator := some m.2.2.1, values := [v] }]
  | none => []

/-- Stage of `table.column (>=|<=|<>|!=|>|<) $N`. -/
def stageTableCompare (norm : List Char) (params : List Value) : List Cond :=
  (scanG tableCompareAt none norm).foldl (fun acc m => acc ++ emitTableCompare params m) []

/-- Condition pushed for one `column BETWEEN $N AND $M` match: both
placeholders must resolve; the two values are kept in source order. -/
def emitSimpleBetween (params : List Value) (m : List Char × Nat × Nat) : List Cond :=
  match resolveParam params m.2.1, resolveParam params m.2.2 with
  | some v1, some v2 =>
      [{ table := none, column := lowerS m.1,
         operator := some (("BETWEEN").toList), values := [v1, v2] }]
  | _, _ => []

/-- Stage of `column BETWEEN $N AND $M`. -/
def stageSimpleBetween (norm : List Char) (params : List Value) : List Cond :=
  (scanG simpleBetweenAt none norm).foldl (fun acc m => acc ++ emitSimpleBetween params m) []

/-- Condition pushed for one `table.column BETWEEN $N AND $M` match. -/
def emitTableBetween (params : List Value) (m : List Char × List Char × Nat × Nat) : List Cond :=
  match resolveParam params m.2.2.1, resolveParam params m.2.2.2 with
  | some v1, some v2 =>
      [{ table := some (lowerS m.1), column := lowerS m.2.1,
         operator := some (("BETWEEN").toList), values := [v1, v2] }]
  | _, _ => []

/-- Stage of `table.column BETWEEN $N AND $M`. -/
def stageTableBetween (norm : List Char) (params : List Value) : List Cond :=
  (scanG tableBetweenAt none norm).foldl (fun acc m => acc ++ emitTableBetween params m) []

/-- Condition pushed for one `LIKE`/`ILIKE` match: operator upper-cased. -/
def emitSimpleLike (params : List Value) (m : List Char × List Char × Nat) : List Cond :=
  match resolveParam params m.2.2 with
  | some v => [{ table := none, column := lowerS m.1,
                 operator := some m.2.1, values := [v] }]
  | none => []

/-- Stage of `column LIKE|ILIKE $N`. -/
def stageSimpleLike (norm : List Char) (params : List Value) : List Cond :=
  (scanG simpleLikeAt none norm).foldl (fun acc m => acc ++ emitSimpleLike params m) []

/-- Condition pushed for one table-qualified `LIKE`/`ILIKE` match. -/
def emitTableLike (params : List Value) (m : List Char × List Char × List Char × Nat) :
    List Cond :=
  match resolveParam params m.2.2.2 with
  | some v => [{ table := some (lowerS m.1), column := lowerS m.2.1,
                 operator := some m.2.2.1, values := [v] }]
  | none => []

/-- Stage of `table.column LIKE|ILIKE $N`. -/
def stageTableLike (norm : List Char) (params : List Value) : List Cond :=
  (scanG tableLikeAt none norm).foldl (fun acc m => acc ++ emitTableLike params m) []

/-- Condition pushed for one `column NOT IN (...)` match. -/
def emitSimpleNotIn (params : List Value) (m : List Char × List Char) : List Cond :=
  let ds := scanDollars m.2
  if ds = [] then []
  else
    let vals := ds.filterMap (resolveParam params)
    if vals = [] then []
    else [{ table := none, column := lowerS m.1,
            operator := some (("NOT IN").toList), values := vals }]

/-- Stage of `column NOT IN (...)`. -/
def stageSimpleNotIn (norm : List Char) (params : List Value) : List Cond :=
  (scanG simpleNotInAt none norm).foldl (fun acc m => acc ++ emitSimpleNotIn params m) []

/-- Condition pushed for one `table.column NOT IN (...)` match. -/
def emitTableNotIn (params : List Value) (m : List Char × List Char × List Char) : List Cond :=
  let ds := scanDollars m.2.2
  if ds = [] then []
  else
    let vals := ds.filterMap (resolveParam params)
    if vals = [] then []
    else [{ table := some (lowerS m.1), column := lowerS m.2.1,
            operator := some (("NOT IN").toList), values := vals }]

/-- Stage of `table.column NOT IN (...)`. -/
def stageTableNotIn (norm : List Char) (params : List Value) : List Cond :=
  (scanG tableNotInAt none norm).foldl (fun acc m => acc ++ emitTableNotIn params m) []

/-- Condition pushed for one `IS NULL`/`IS NOT NULL` match: no parameter
dependency, empty value list, normalized operator. -/
def emitSimpleIsNull (m : List Char × List Char) : List Cond :=
  [{ table := none, column := lowerS m.1, operator := some m.2, values := [] }]

/-- Stage of `column IS NULL | IS NOT NULL`. -/
def stageSimpleIsNull (norm : List Char) : List Cond :=
  (scanG simpleIsNullAt none norm).foldl (fun acc m => acc ++ emitSimpleIsNull m) []

/-- Condition pushed for one table-qualified null-check match. -/
def emitTableIsNull (m : List Char × List Char × List Char) : List Cond :=
  [{ table := some (lowerS m.1), column := lowerS m.2.1,
     operator := some m.2.2, values := [] }]

/-- Stage of `table.column IS NULL | IS NOT NULL`. -/
def stageTableIsNull (norm : List Char) : List Cond :=
  (scanG tableIsNullAt none norm).foldl (fun acc m => acc ++ emitTableIsNull m) []

/-- `isIdColumn` from the source. -/
def isIdColumn (column : List Char) : Bool :=
  let col := lowerS column
  col = ("id").toList
    || (("_id").toList).isSuffixOf col
    || (("id").toList).isSuffixOf col

/-- Condition pushed for one integer-literal match `table.column = 123`:
emitted only for ID-like column names. -/
def emitLiteral (m : List Char × List Char × Nat) : List Cond :=
  if isIdColumn (lowerS m.2.1) then
    [{ table := some (lowerS m.1), column := lowerS m.2.1, operator := none,
       values := [Value.scalar (Scalar.num (Int.ofNat m.2.2))] }]
  else []

/-- Stage of the integer-literal pattern `table.column = 123`. -/
def stageLiteral (norm : List Char) : List Cond :=
  (scanG literalAt none norm).foldl (fun acc m => acc ++ emitLiteral m) []

/-- Condition pushed for one string-literal match: emitted for every
column name. -/
def emitStringLiteral (m : List Char × List Char × List Char) : List Cond :=
  [{ table := some (lowerS m.1), column := lowerS m.2.1, operator := none,
     values := [Value.scalar (Scalar.str m.2.2)] }]

/-- Stage of the string-literal pattern. -/
def stageStringLiteral (norm : List Char) : List Cond :=
  (scanG stringLiteralAt none norm).foldl (fun acc m => acc ++ emitStringLiteral m) []

/-- `extractIdConditions` from the source: all pattern stages run over the
normalized text, their conditions concatenated in source order. -/
def extractIdConditions (query : List Char) (params : List Value) : List Cond :=
  let normalized := normalizeWs query
  stageSimpleEqual normalized params
    ++ stageTableEqual normalized params
    ++ stageSimpleIn normalized params
    ++ stageTableIn normalized params
    ++ stageSimpleAny normalized params
    ++ stageTableAny normalized params
    ++ stageSimpleCompare normalized params
    ++ stageTableCompare normalized params
    ++ stageSimpleBetween normalized params
    ++ stageTableBetween normalized params
    ++ stageSimpleLike normalized params
    ++ stageTableLike normalized params
    ++ stageSimpleNotIn normalized params
    ++ stageTableNotIn normalized params
    ++ stageSimpleIsNull normalized
    ++ stageTableIsNull normalized
    ++ stageLiteral normalized
    ++ stageStringLiteral normalized

/-- The session-level result of `analyzeFile`.  The conditions produced
there carry no operator property (`operator := none`). -/
structure AnalysisResult where
  tables : List (List Char)
  conditions : List Cond
  queryCount : Nat
deriving DecidableEq, Repr

/-- One entry of the aggregation map: the table and column recorded at
first insertion and the running value set (insertion-ordered, exact-value
deduplicated). -/
structure AggEntry where
  table : Option (List Char)
  column : List Char
  values : List Value
deriving DecidableEq, Repr

instance : Inhabited Cond := ⟨{ table := none, column := [], operator := none, values := [] }⟩

instance : Inhabited AggEntry := ⟨{ table := none, column := [], values := [] }⟩

/-- Table inference for a condition: an explicit table is kept, otherwise
the first table found in the same query is used (none when the query
produced no tables). -/
def inferTable (tables : List (List Char)) (c : Cond) : Option (List Char) :=
  match c.table with
  | some t => some t
  | none => tables.head?

/-- The string key of the aggregation map (the template
`table-or-underscore.column`). -/
def condKey (t : Option (List Char)) (column : List Char) : List Char :=
  t.getD (("_").toList) ++ '.' :: column

/-- First entry of the association list with the given key
(`Map.has`/`Map.get`; the key list never repeats, see `condMap_keys_nodup`). -/
def lookupKey (m : List (List Char × AggEntry)) (k : List Char) : Option AggEntry :=
  match m with
  | [] => none
  | e :: m => if e.1 = k then some e.2 else lookupKey m k

/-- Add values (with set semantics) to the entry of the given key. -/
def addValuesAt (m : List (List Char × AggEntry)) (k : List Char) (vs : List Value) :
    List (List Char × AggEntry) :=
  m.map (fun e =>
    if e.1 = k then (e.1, { e.2 with values := vs.foldl setAdd e.2.values }) else e)

/-- Merge one condition of one query into the aggregation map: infer a
table when the condition has none, create the entry at first sight of the
key, then add the values to its value set. -/
def mergeCond (tables : List (List Char)) (m : List (List Char × AggEntry)) (c : Cond) :
    List (List Char × AggEntry) :=
  let t := inferTable tables c
  let k := condKey t c.column
  let m1 :=
    if (lookupKey m k).isSome then m
    else m ++ [(k, { table := t, column := c.column, values := [] })]
  addValuesAt m1 k c.values

/-- The running aggregation state of the `analyzeFile` loop. -/
structure AggState where
  allTables : List (List Char)
  condMap : List (List Char × AggEntry)
deriving DecidableEq, Repr

/-- One loop iteration of `analyzeFile` over the per-query results. -/
def stepLine (st : AggState) (r : List (List Char) × List Cond) : AggState :=
  { allTables := r.1.foldl setAdd st.allTables
    condMap := r.2.foldl (mergeCond r.1) st.condMap }

/-- The aggregation part of `analyzeFile`, over the per-query
(tables, conditions) results: fold the session, then sort the table set
and each value set.  The produced conditions have no operator property. -/
def aggregateResults (rs : List (List (List Char) × List Cond)) : AnalysisResult :=
  let st := rs.foldl stepLine { allTables := [], condMap := [] }
  { tables := sortStrings st.allTables
    conditions := st.condMap.map (fun e =>
      { table := e.2.table, column := e.2.column, operator := none,
        values := sortValues e.2.values })
    queryCount := rs.length }

/-- One parsed line of the captured-queries file. -/
structure LineRec where
  query : List Char
  params : List Value
deriving DecidableEq, Repr

/-- `analyzeFile` from the source, over the parsed lines of the input
file (reading and JSON parsing happen outside the analyzer core). -/
def analyzeFile (lines : List LineRec) : AnalysisResult :=
  aggregateResults (lines.map fun l =>
    (extractTableNames l.query, extractIdConditions l.query l.params))

/-- Literal rendering of one value: strings are single-quoted, everything
else is rendered with `String(v)`. -/
def renderValue (v : Value) : List Char :=
  match v with
  | Value.scalar (Scalar.str s) => sqc :: s ++ [sqc]
  | _ => jsToString v

/-- `values[0]` interpolated into a template: an out-of-range index is
JavaScript `undefined`, interpolated as the text `undefined`. -/
def renderFirstValue (values : List Value) : List Char :=
  match values with
  | [] => ("undefined").toList
  | v :: _ => renderValue v

/-- `values[1]` interpolated into a template. -/
def renderSecondValue (values : List Value) : List Char :=
  match values with
  | _ :: v :: _ => renderValue v
  | _ => ("undefined").toList

/-- The comma join of the rendered values. -/
def joinValues (values : List Value) : List Char :=
  List.intercalate ((", ").toList) (values.map renderValue)

/-- The comparison-operator membership test of the renderer. -/
def isCompareOp (op : List Char) : Bool :=
  op = ((">=").toList) || op = (("<=").toList) || op = ((">").toList)
    || op = (("<").toList) || op = (("!=").toList) || op = (("<>").toList)

/-- The per-condition predicate string of `generateJailerConditions`,
following the if-chain of the source; a missing operator property defaults
to `=`. -/
def renderCond (c : Cond) : List Char :=
  let op := c.operator.getD (("=").toList)
  if op = (("BETWEEN").toList) && c.values.length = 2 then
    c.column ++ ((" BETWEEN ").toList) ++ renderFirstValue c.values
      ++ ((" AND ").toList) ++ renderSecondValue c.values
  else if op = (("IS NULL").toList) || op = (("IS NOT NULL").toList) then
    c.column ++ ' ' :: op
  else if op = (("LIKE").toList) || op = (("ILIKE").toList) then
    c.column ++ ' ' :: op ++ ' ' :: renderFirstValue c.values
  else if op = (("NOT IN").toList) then
    c.column ++ ((" NOT IN (").toList) ++ joinValues c.values ++ [')']
  else if isCompareOp op then
    c.column ++ ' ' :: op ++ ' ' :: renderFirstValue c.values
  else if c.values.length = 1 then
    c.column ++ ((" = ").toList) ++ renderFirstValue c.values
  else
    c.column ++ ((" IN (").toList) ++ joinValues c.values ++ [')']

/-- One rendered condition. -/
structure JailerCond where
  table : List Char
  condition : List Char
deriving DecidableEq, Repr

/-- Rendered entries pushed for one aggregated condition: none when the
condition has no table. -/
def renderEntry (c : Cond) : List JailerCond :=
  match c.table with
  | none => []
  | some t => [{ table := t, condition := renderCond c }]

/-- `generateJailerConditions` from the source: render every aggregated
condition that has a table, silently skipping the rest. -/
def generateJailerConditions (analysis : AnalysisResult) : List JailerCond :=
  analysis.conditions.foldl (fun acc c => acc ++ renderEntry c) []

/-- Query text of scenario A. -/
def queryA : List Char := ("SELECT * FROM users WHERE id = $1").toList

/-- Parameter list of scenario A. -/
def paramsA : List Value := [Value.scalar (Scalar.num 42)]

/-- C8: for the single-line session `SELECT * FROM users WHERE id = $1`
with params `[42]`, the pipeline produces tables `["users"]`, exactly one
aggregated condition (table `users`, column `id`, values `[42]`, inferred
from the first table of the query), and the rendered output
`[{table: users, condition: "id = 42"}]`. -/
theorem c8_scenarioA :
    analyzeFile [{ query := queryA, params := paramsA }] =
      { tables := [("users").toList]
        conditions := [{ table := some (("users").toList), column := ("id").toList,
                         operator := none, values := [Value.scalar (Scalar.num 42)] }]
        queryCount := 1 } ∧
    generateJailerConditions (analyzeFile [{ query := queryA, params := paramsA }]) =
      [{ table := ("users").toList, condition := ("id = 42").toList }] := by
  constructor
  · decide
  · decide

/-- Shorthand for a string parameter value. -/
def vstr (s : String) : Value := Value.scalar (Scalar.str s.toList)

/-- Shorthand for an integer parameter value. -/
def vnum (n : Int) : Value := Value.scalar (Scalar.num n)

/-- Query text of scenario B. -/
def queryB : List Char := ("SELECT * FROM orders WHERE status NOT IN ($1,$2,$3)").toList

/-- Parameter list of scenario B. -/
def paramsB : List Value := [vstr ("cancelled"), vstr ("deleted"), vstr ("archived")]

/-- Query text of scenario C. -/
def queryC : List Char := ("SELECT * FROM users WHERE deleted_at IS NULL").toList

/-- The rendered predicate string scenario B claims,
`status NOT IN ('cancelled', 'deleted', 'archived')`. -/
def claimedB : List Char :=
  ("status NOT IN (").toList ++ [sqc] ++ ("cancelled").toList ++ [sqc]
    ++ (", ").toList ++ [sqc] ++ ("deleted").toList ++ [sqc]
    ++ (", ").toList ++ [sqc] ++ ("archived").toList ++ [sqc] ++ [')']

/-- The predicate string the pipeline really renders for column `status`
in scenario B: `status IN ('archived', 'cancelled', 'deleted')`. -/
def actualStatusB : List Char :=
  ("status IN (").toList ++ [sqc] ++ ("archived").toList ++ [sqc]
    ++ (", ").toList ++ [sqc] ++ ("cancelled").toList ++ [sqc]
    ++ (", ").toList ++ [sqc] ++ ("deleted").toList ++ [sqc] ++ [')']

/-- The spurious predicate string the pipeline renders for the captured
word `not` in scenario B: `not IN ('archived', 'cancelled', 'deleted')`. -/
def actualNotB : List Char :=
  ("not IN (").toList ++ [sqc] ++ ("archived").toList ++ [sqc]
    ++ (", ").toList ++ [sqc] ++ ("cancelled").toList ++ [sqc]
    ++ (", ").toList ++ [sqc] ++ ("deleted").toList ++ [sqc] ++ [')']

/-- The full extractor output on scenario B (computed once, shared):
first the spurious bare-`IN` condition whose captured column is the word
`not`, then the real `NOT IN` condition for `status`. -/
theorem extractB_eq :
    extractIdConditions queryB paramsB =
      [{ table := none, column := ("not").toList, operator := none,
         values := [vstr ("cancelled"), vstr ("deleted"), vstr ("archived")] },
       { table := none, column := ("status").toList, operator := some (("NOT IN").toList),
         values := [vstr ("cancelled"), vstr ("deleted"), vstr ("archived")] }] := by
  decide

/-- The pipeline output on the single-line session of scenario B
(computed once, shared). -/
theorem pipelineB_eq :
    generateJailerConditions (analyzeFile [{ query := queryB, params := paramsB }]) =
      [{ table := ("orders").toList, condition := actualNotB },
       { table := ("orders").toList, condition := actualStatusB }] := by
  decide

/-- The extractor output on scenario C (computed once, shared). -/
theorem extractC_eq :
    extractIdConditions queryC [] =
      [{ table := none, column := ("deleted_at").toList,
         operator := some (("IS NULL").toList), values := [] }] := by
  decide

/-- The analysis and pipeline output on the single-line session of
scenario C (computed once, shared): the aggregated condition carries the
inferred table `users` but no operator, and the renderer falls through to
the `IN` branch over an empty value list. -/
theorem pipelineC_eq :
    analyzeFile [{ query := queryC, params := [] }] =
      { tables := [("users").toList]
        conditions := [{ table := some (("users").toList), column := ("deleted_at").toList,
                         operator := none, values := [] }]
        queryCount := 1 } ∧
    generateJailerConditions (analyzeFile [{ query := queryC, params := [] }]) =
      [{ table := ("users").toList, condition := ("deleted_at IN ()").toList }] := by
  constructor
  · decide
  · decide

/-- C1, counterexample: in the session of scenario B the extractor
produces a `NOT IN` operator for the `status` condition (the first and
only operator merged for its key), but the aggregated conditions of
`analyzeFile` carry no operator at all — `analyzeFile` stores only table,
column and values in its map, dropping the operator. -/
theorem c1_counterexample :
    ((analyzeFile [{ query := queryB, params := paramsB }]).conditions.map
        (fun c => c.operator)) = [none, none] ∧
    ((extractIdConditions queryB paramsB).map (fun c => c.operator)) =
      [none, some (("NOT IN").toList)] := by
  constructor
  · decide
  · decide

/-- C2, counterexample: the pipeline output for scenario B does not
contain the claimed rendered entry
`status NOT IN ('cancelled', 'deleted', 'archived')` for table `orders`. -/
theorem c2_counterexample :
    ({ table := ("orders").toList, condition := claimedB } : JailerCond) ∉
      generateJailerConditions (analyzeFile [{ query := queryB, params := paramsB }]) := by
  rw [pipelineB_eq]
  decide

/-- C2, amended: on scenario B the extractor does emit the condition
with column `status`, operator `NOT IN` and exactly the three parameter
values (preceded by a spurious bare-`IN` condition for the word `not`);
but the pipeline drops the operator during aggregation and sorts the
value set, so it renders `not IN ('archived', 'cancelled', 'deleted')`
and `status IN ('archived', 'cancelled', 'deleted')` for table `orders`
instead of the claimed `status NOT IN ('cancelled', 'deleted', 'archived')`. -/
theorem c2_amended :
    extractIdConditions queryB paramsB =
      [{ table := none, column := ("not").toList, operator := none,
         values := [vstr ("cancelled"), vstr ("deleted"), vstr ("archived")] },
       { table := none, column := ("status").toList, operator := some (("NOT IN").toList),
         values := [vstr ("cancelled"), vstr ("deleted"), vstr ("archived")] }] ∧
    generateJailerConditions (analyzeFile [{ query := queryB, params := paramsB }]) =
      [{ table := ("orders").toList, condition := actualNotB },
       { table := ("orders").toList, condition := actualStatusB }] :=
  ⟨extractB_eq, pipelineB_eq⟩

/-- C3, counterexample: the pipeline output for scenario C does not
contain the claimed rendered entry `deleted_at IS NULL` for table
`users`. -/
theorem c3_counterexample :
    ({ table := ("users").toList, condition := ("deleted_at IS NULL").toList } : JailerCond) ∉
      generateJailerConditions (analyzeFile [{ query := queryC, params := [] }]) := by
  rw [pipelineC_eq.2]
  decide

/-- C3, amended: on scenario C the extractor does emit the condition
with column `deleted_at`, operator exactly `IS NULL` and an empty value
list, and aggregation does infer table `users` for it; but the operator
is dropped by the aggregation map, so the renderer falls through to its
default branch and renders `deleted_at IN ()` instead of
`deleted_at IS NULL`. -/
theorem c3_amended :
    extractIdConditions queryC [] =
      [{ table := none, column := ("deleted_at").toList,
         operator := some (("IS NULL").toList), values := [] }] ∧
    analyzeFile [{ query := queryC, params := [] }] =
      { tables := [("users").toList]
        conditions := [{ table := some (("users").toList), column := ("deleted_at").toList,
                         operator := none, values := [] }]
        queryCount := 1 } ∧
    generateJailerConditions (analyzeFile [{ query := queryC, params := [] }]) =
      [{ table := ("users").toList, condition := ("deleted_at IN ()").toList }] :=
  ⟨extractC_eq, pipelineC_eq.1, pipelineC_eq.2⟩

/-- Query with an integer literal on a column that does not look like an
ID column. -/
def queryD : List Char := ("SELECT * FROM t WHERE t.status = 5").toList

/-- C4, counterexample: `t.status = 5` is a table-qualified integer
literal equality, yet the extractor emits nothing for it, because the
integer-literal pattern is guarded by `isIdColumn` and `status` is not an
ID-like column name. -/
theorem c4_counterexample :
    extractIdConditions queryD [] = [] := by
  decide

/-- Query of the nested-membership counterexample to C5: the bare `IN`
pattern consumes `f IN (g, a NOT IN ($1` up to the first closing
parenthesis, so no match with column `not` exists. -/
def queryN : List Char := ("SELECT * FROM t WHERE f IN (g, a NOT IN ($1), h)").toList

/-- C5, counterexample: this query contains `a NOT IN ($1)` with a
resolvable placeholder, but the extractor emits no condition whose column
is the word `not`: the bare `IN` match starts at `f` and swallows the
`NOT IN` text, capturing column `f` instead. -/
theorem c5_counterexample :
    extractIdConditions queryN [vnum 7] =
      [{ table := none, column := ("f").toList, operator := none, values := [vnum 7] },
       { table := none, column := ("a").toList, operator := some (("NOT IN").toList),
         values := [vnum 7] }] ∧
    ((extractIdConditions queryN [vnum 7]).all
      (fun c => decide (c.column ≠ ("not").toList))) = true := by
  constructor
  · decide
  · decide

/-- C6, counterexample: the query `FROM select` contains `FROM t` for the
identifier `t = select`, but the extractor output is empty, because the
captured identifier is filtered against the reserved-word list; so the
output does not include every identifier following `FROM`. -/
theorem c6_counterexample :
    extractTableNames (("FROM select").toList) = [] := by
  decide

theorem foldl_append_flatMap {α β : Type} (g : α → List β) (l : List α) (init : List β) :
    l.foldl (fun acc x => acc ++ g x) init = init ++ l.flatMap g := by
  induction l generalizing init with
  | nil => simp
  | cons x xs ih => simp [List.foldl_cons, ih]

theorem stageLiteral_flatMap (norm : List Char) :
    stageLiteral norm = (scanG literalAt none norm).flatMap emitLiteral := by
  unfold stageLiteral
  rw [foldl_append_flatMap]
  simp

theorem stageStringLiteral_flatMap (norm : List Char) :
    stageStringLiteral norm = (scanG stringLiteralAt none norm).flatMap emitStringLiteral := by
  unfold stageStringLiteral
  rw [foldl_append_flatMap]
  simp

/-- One contribution of a query line to the aggregation: the condition
paired with its inferred table. -/
def lineContribs (r : List (List Char) × List Cond) : List (Option (List Char) × Cond) :=
  r.2.map (fun c => (inferTable r.1 c, c))

/-- All contributions of a session, in processing order. -/
def sessionContribs (rs : List (List (List Char) × List Cond)) :
    List (Option (List Char) × Cond) :=
  rs.flatMap lineContribs

/-- The aggregation-map key of one contribution. -/
def contribKey (tc : Option (List Char) × Cond) : List Char :=
  condKey tc.1 tc.2.column

/-- `mergeCond` with the table inference already performed. -/
def mergeOne (m : List (List Char × AggEntry)) (tc : Option (List Char) × Cond) :
    List (List Char × AggEntry) :=
  addValuesAt
    (if (lookupKey m (contribKey tc)).isSome then m
     else m ++ [(contribKey tc, { table := tc.1, column := tc.2.column, values := [] })])
    (contribKey tc) tc.2.values

theorem mergeCond_eq_mergeOne (tables : List (List Char)) (m : List (List Char × AggEntry))
    (c : Cond) : mergeCond tables m c = mergeOne m (inferTable tables c, c) := rfl

/-- The values contributed to one key by a contribution list. -/
def keyVals (l : List (Option (List Char) × Cond)) (k : List Char) : List Value :=
  l.flatMap (fun tc => if contribKey tc = k then tc.2.values else [])

/-- The first contribution carrying the given key. -/
def firstContrib (l : List (Option (List Char) × Cond)) (k : List Char) :
    Option (Option (List Char) × Cond) :=
  l.find? (fun tc => decide (contribKey tc = k))

theorem lookupKey_addValuesAt (m : List (List Char × AggEntry)) (k k' : List Char)
    (vs : List Value) :
    lookupKey (addValuesAt m k vs) k' =
      (lookupKey m k').map (fun e =>
        if k' = k then { e with values := List.foldl setAdd e.values vs } else e) := by
  induction m with
  | nil => simp [addValuesAt, lookupKey]
  | cons p m ih =>
    simp only [addValuesAt, List.map_cons] at ih ⊢
    by_cases hp : p.1 = k <;> by_cases hp' : p.1 = k'
    · have hk : k' = k := by rw [← hp', ← hp]
      rw [if_pos hp]
      simp [lookupKey, hp', hk]
    · have hk : ¬ (k' = k) := fun h => hp' (hp.trans h.symm)
      rw [if_pos hp]
      simp [lookupKey, hp', hk, ih]
    · have hk : ¬ (k' = k) := fun h => hp (hp'.trans h)
      rw [if_neg hp]
      simp [lookupKey, hp', hk, ih]
    · rw [if_neg hp]
      simp [lookupKey, hp', ih]

theorem lookupKey_append_single (m : List (List Char × AggEntry)) (k k' : List Char)
    (e : AggEntry) :
    lookupKey (m ++ [(k, e)]) k' =
      match lookupKey m k' with
      | some x => some x
      | none => if k = k' then some e else none := by
  induction m with
  | nil => simp [lookupKey]
  | cons p m ih =>
    by_cases hp : p.1 = k'
    · simp [lookupKey, hp]
    · simp [lookupKey, hp, ih]

theorem lookupKey_mergeOne (m : List (List Char × AggEntry))
    (tc : Option (List Char) × Cond) (k' : List Char) :
    lookupKey (mergeOne m tc) k' =
      if k' = contribKey tc then
        match lookupKey m (contribKey tc) with
        | some e => some { e with values := List.foldl setAdd e.values tc.2.values }
        | none => some { table := tc.1, column := tc.2.column,
                         values := List.foldl setAdd [] tc.2.values }
      else lookupKey m k' := by
  unfold mergeOne
  by_cases hs : (lookupKey m (contribKey tc)).isSome
  · rw [if_pos hs, lookupKey_addValuesAt]
    rcases Option.isSome_iff_exists.mp hs with ⟨e, he⟩
    by_cases hk : k' = contribKey tc
    · subst hk
      simp [he]
    · rw [if_neg hk]
      cases h2 : lookupKey m k' <;> simp [hk]
  · rw [if_neg hs]
    have hnone : lookupKey m (contribKey tc) = none := Option.not_isSome_iff_eq_none.mp hs
    rw [lookupKey_addValuesAt, lookupKey_append_single]
    by_cases hk : k' = contribKey tc
    · subst hk
      simp [hnone]
    · have hk2 : ¬ (contribKey tc = k') := fun h => hk h.symm
      rw [if_neg hk]
      cases h2 : lookupKey m k' <;> simp [hk, hk2, hnone]

theorem keyVals_cons (tc : Option (List Char) × Cond)
    (l : List (Option (List Char) × Cond)) (k : List Char) :
    keyVals (tc :: l) k =
      (if contribKey tc = k then tc.2.values else []) ++ keyVals l k := by
  simp [keyVals]

/-- Characterization of the aggregation fold: the entry found under a key
holds the table and column of the first contribution with that key, and
its value list is the running set of every value contributed to the key. -/
theorem lookupKey_foldl_mergeOne (l : List (Option (List Char) × Cond))
    (m : List (List Char × AggEntry)) (k : List Char) :
    lookupKey (l.foldl mergeOne m) k =
      match lookupKey m k with
      | some e => some { e with values := List.foldl setAdd e.values (keyVals l k) }
      | none =>
        match firstContrib l k with
        | some tc => some { table := tc.1, column := tc.2.column,
                            values := List.foldl setAdd [] (keyVals l k) }
        | none => none := by
  induction l generalizing m with
  | nil =>
    cases h : lookupKey m k <;> simp [keyVals, firstContrib, h]
  | cons tc l ih =>
    rw [List.foldl_cons, ih, lookupKey_mergeOne]
    by_cases hk : k = contribKey tc
    · subst hk
      rw [if_pos rfl]
      cases h : lookupKey m (contribKey tc) with
      | some e => simp [keyVals_cons, List.foldl_append]
      | none =>
        simp [keyVals_cons, List.foldl_append, firstContrib, List.find?_cons]
    · rw [if_neg hk]
      have hk2 : ¬ (contribKey tc = k) := fun h => hk h.symm
      cases h : lookupKey m k with
      | some e => simp [h, keyVals_cons, hk2]
      | none => simp [h, keyVals_cons, hk2, firstContrib, List.find?_cons]

theorem addValuesAt_map_fst (m : List (List Char × AggEntry)) (k : List Char)
    (vs : List Value) : (addValuesAt m k vs).map Prod.fst = m.map Prod.fst := by
  induction m with
  | nil => rfl
  | cons p m ih =>
    simp only [addValuesAt, List.map_cons] at ih ⊢
    by_cases hp : p.1 = k
    · rw [if_pos hp]
      simp [ih]
    · rw [if_neg hp]
      simp [ih]

theorem lookupKey_eq_none_iff (m : List (List Char × AggEntry)) (k : List Char) :
    lookupKey m k = none ↔ k ∉ m.map Prod.fst := by
  induction m with
  | nil => simp [lookupKey]
  | cons p m ih =>
    by_cases hp : p.1 = k
    · simp [lookupKey, hp]
    · have hkp : ¬ (k = p.1) := fun h => hp h.symm
      simp [lookupKey, hp, ih, hkp]

theorem mergeOne_map_fst (m : List (List Char × AggEntry))
    (tc : Option (List Char) × Cond) :
    (mergeOne m tc).map Prod.fst = setAdd (m.map Prod.fst) (contribKey tc) := by
  unfold mergeOne setAdd
  by_cases hs : (lookupKey m (contribKey tc)).isSome
  · rw [if_pos hs, addValuesAt_map_fst]
    have : contribKey tc ∈ m.map Prod.fst := by
      by_contra hmem
      rw [← lookupKey_eq_none_iff] at hmem
      simp [hmem] at hs
    rw [if_pos this]
  · rw [if_neg hs, addValuesAt_map_fst]
    have : contribKey tc ∉ m.map Prod.fst := by
      rw [← lookupKey_eq_none_iff]
      exact Option.not_isSome_iff_eq_none.mp hs
    rw [if_neg this]
    simp

theorem foldl_mergeOne_map_fst (l : List (Option (List Char) × Cond))
    (m : List (List Char × AggEntry)) :
    (l.foldl mergeOne m).map Prod.fst =
      (l.map contribKey).foldl setAdd (m.map Prod.fst) := by
  induction l generalizing m with
  | nil => simp
  | cons tc l ih => simp [List.foldl_cons, ih, mergeOne_map_fst]

theorem condMap_keys_nodup (l : List (Option (List Char) × Cond))
    (m : List (List Char × AggEntry)) (h : (m.map Prod.fst).Nodup) :
    ((l.foldl mergeOne m).map Prod.fst).Nodup := by
  rw [foldl_mergeOne_map_fst]
  exact nodup_foldl_setAdd _ h

theorem mem_of_lookupKey_some {m : List (List Char × AggEntry)} {k : List Char}
    {e : AggEntry} (h : lookupKey m k = some e) : (k, e) ∈ m := by
  induction m with
  | nil => simp [lookupKey] at h
  | cons p m ih =>
    obtain ⟨p1, p2⟩ := p
    by_cases hp : p1 = k
    · subst hp
      simp only [lookupKey, if_pos, Option.some.injEq] at h
      subst h
      exact List.mem_cons_self _ _
    · simp only [lookupKey, hp, if_neg, not_false_iff] at h
      exact List.mem_cons_of_mem _ (ih h)

theorem lookupKey_some_of_mem {m : List (List Char × AggEntry)} {k : List Char}
    {e : AggEntry} (hnd : (m.map Prod.fst).Nodup) (h : (k, e) ∈ m) :
    lookupKey m k = some e := by
  induction m with
  | nil => simp at h
  | cons p m ih =>
    obtain ⟨p1, p2⟩ := p
    simp only [List.map_cons, List.nodup_cons] at hnd
    rcases List.mem_cons.mp h with heq | hmem
    · have hk : k = p1 := congrArg Prod.fst heq
      have he : e = p2 := congrArg Prod.snd heq
      subst hk
      subst he
      simp [lookupKey]
    · have hp : ¬ (p1 = k) := by
        intro hk
        subst hk
        exact hnd.1 (by simpa using List.mem_map_of_mem Prod.fst hmem)
      simp only [lookupKey, hp, if_neg, not_false_iff]
      exact ih hnd.2 hmem

theorem foldl_mergeCond_eq_contribs (tables : List (List Char)) (conds : List Cond)
    (m : List (List Char × AggEntry)) :
    conds.foldl (mergeCond tables) m = (lineContribs (tables, conds)).foldl mergeOne m := by
  unfold lineContribs
  rw [List.foldl_map]
  rfl

theorem condMap_eq_foldl_contribs (rs : List (List (List Char) × List Cond))
    (st : AggState) :
    (rs.foldl stepLine st).condMap = (sessionContribs rs).foldl mergeOne st.condMap := by
  induction rs generalizing st with
  | nil => simp [sessionContribs]
  | cons r rs ih =>
    rw [List.foldl_cons, ih]
    unfold sessionContribs
    rw [List.flatMap_cons, List.foldl_append]
    unfold stepLine
    rw [← foldl_mergeCond_eq_contribs]

theorem allTables_eq_foldl (rs : List (List (List Char) × List Cond)) (st : AggState) :
    (rs.foldl stepLine st).allTables =
      (rs.flatMap Prod.fst).foldl setAdd st.allTables := by
  induction rs generalizing st with
  | nil => simp
  | cons r rs ih =>
    rw [List.foldl_cons, ih, List.flatMap_cons, List.foldl_append]
    rfl

theorem toFinset_foldl_setAdd (l : List Value) (init : List Value) :
    (List.foldl setAdd init l).toFinset = init.toFinset ∪ l.toFinset := by
  ext v
  simp [List.mem_toFinset, mem_foldl_setAdd]

/-- The per-query extraction results of a session, as `analyzeFile` folds
them. -/
def sessionOf (lines : List LineRec) : List (List (List Char) × List Cond) :=
  lines.map fun l => (extractTableNames l.query, extractIdConditions l.query l.params)

theorem analyzeFile_eq_aggregate (lines : List LineRec) :
    analyzeFile lines = aggregateResults (sessionOf lines) := rfl

theorem aggregateResults_conditions (rs : List (List (List Char) × List Cond)) :
    (aggregateResults rs).conditions =
      ((sessionContribs rs).foldl mergeOne []).map (fun e =>
        { table := e.2.table, column := e.2.column, operator := none,
          values := sortValues e.2.values }) := by
  unfold aggregateResults
  rw [← condMap_eq_foldl_contribs rs { allTables := [], condMap := [] }]

theorem aggregateResults_tables (rs : List (List (List Char) × List Cond)) :
    (aggregateResults rs).tables =
      sortStrings ((rs.flatMap Prod.fst).foldl setAdd []) := by
  unfold aggregateResults
  rw [← allTables_eq_foldl rs { allTables := [], condMap := [] }]

/-- Everything known about one entry of the fully folded aggregation map:
its key is the key of its recorded table and column, those fields come
from the first contribution with that key, and its value list is the
deduplicating fold of every value contributed to the key. -/
theorem mem_condMap_char (l : List (Option (List Char) × Cond)) (p : List Char × AggEntry)
    (hp : p ∈ l.foldl mergeOne []) :
    (∃ tc, firstContrib l p.1 = some tc ∧ p.2.table = tc.1 ∧ p.2.column = tc.2.column) ∧
    condKey p.2.table p.2.column = p.1 ∧
    p.2.values = List.foldl setAdd [] (keyVals l p.1) := by
  have hnd := condMap_keys_nodup l [] (by simp)
  have hlook := lookupKey_some_of_mem hnd hp
  rw [lookupKey_foldl_mergeOne] at hlook
  simp only [lookupKey] at hlook
  cases hfc : firstContrib l p.1 with
  | none =>
    rw [hfc] at hlook
    simp at hlook
  | some tc =>
    rw [hfc] at hlook
    have hkey : contribKey tc = p.1 := by
      have := List.find?_some hfc
      simpa using this
    simp only [Option.some.injEq] at hlook
    refine ⟨⟨tc, rfl, ?_, ?_⟩, ?_, ?_⟩
    · rw [← hlook]
    · rw [← hlook]
    · rw [← hlook]
      exact hkey
    · rw [← hlook]

/-- C1, amended: `analyzeFile` maintains a map keyed by
(table-or-unset, column) — one aggregated condition per first-seen key —
and for each key accumulates the exact-value-deduplicated union of the
values of every merged condition across the whole session; but the
aggregated condition does NOT keep any operator: the map entries record
only table, column and values, so every condition in the `AnalysisResult`
carries no operator property (an aggregated `NOT IN`, `BETWEEN`,
`IS NULL` etc. condition loses its operator). -/
theorem c1_amended (lines : List LineRec) :
    ((analyzeFile lines).conditions.map fun c => condKey c.table c.column) =
      ((sessionContribs (sessionOf lines)).map contribKey).foldl setAdd [] ∧
    ∀ c, c ∈ (analyzeFile lines).conditions →
      c.operator = none ∧ c.values.Nodup ∧
      c.values.toFinset =
        (keyVals (sessionContribs (sessionOf lines)) (condKey c.table c.column)).toFinset := by
  rw [analyzeFile_eq_aggregate, aggregateResults_conditions]
  constructor
  · rw [List.map_map]
    have hmap : ((sessionContribs (sessionOf lines)).foldl mergeOne []).map
        ((fun c => condKey c.table c.column) ∘ (fun e =>
          ({ table := e.2.table, column := e.2.column, operator := none,
             values := sortValues e.2.values } : Cond))) =
        ((sessionContribs (sessionOf lines)).foldl mergeOne []).map Prod.fst := by
      apply List.map_congr_left
      intro p hp
      exact (mem_condMap_char _ p hp).2.1
    rw [hmap, foldl_mergeOne_map_fst]
    simp
  · intro c hc
    rcases List.mem_map.mp hc with ⟨p, hp, rfl⟩
    rcases mem_condMap_char _ p hp with ⟨_, hkey, hvals⟩
    have hperm : List.Perm (sortValues p.2.values) p.2.values := List.perm_insertionSort _ _
    refine ⟨rfl, ?_, ?_⟩
    · rw [hperm.nodup_iff, hvals]
      exact nodup_foldl_setAdd _ (by simp)
    · have ht : (sortValues p.2.values).toFinset = p.2.values.toFinset := by
        ext v
        simp [List.mem_toFinset, hperm.mem_iff]
      simp only []
      rw [ht, hvals, toFinset_foldl_setAdd]
      rw [show condKey p.2.table p.2.column = p.1 from hkey]
      simp

/-- C10: a condition whose query produced no tables keeps a null table
through aggregation (the inference over an empty table list yields none,
and the map entry created for it records no table), and the renderer
silently excludes exactly the conditions without a table while rendering
all others unchanged — the whole pipeline is total, no error is raised. -/
theorem c10_null_table_skipped :
    (∀ analysis : AnalysisResult,
      generateJailerConditions analysis = analysis.conditions.flatMap renderEntry) ∧
    (∀ c : Cond, c.table = none → renderEntry c = []) ∧
    (∀ (c : Cond) (t : List Char), c.table = some t →
      renderEntry c = [{ table := t, condition := renderCond c }]) ∧
    (∀ c : Cond, c.table = none → inferTable [] c = none) ∧
    (∀ (m : List (List Char × AggEntry)) (c : Cond), c.table = none →
      lookupKey m (condKey none c.column) = none →
      lookupKey (mergeCond [] m c) (condKey none c.column) =
        some { table := none, column := c.column,
               values := List.foldl setAdd [] c.values }) := by
  refine ⟨?_, ?_, ?_, ?_, ?_⟩
  · intro analysis
    unfold generateJailerConditions
    rw [foldl_append_flatMap]
    simp
  · intro c hc
    simp [renderEntry, hc]
  · intro c t hc
    simp [renderEntry, hc]
  · intro c hc
    simp [inferTable, hc]
  · intro m c hc hnone
    have hinf : inferTable [] c = none := by simp [inferTable, hc]
    rw [mergeCond_eq_mergeOne, hinf, lookupKey_mergeOne]
    have hkey : contribKey (none, c) = condKey none c.column := rfl
    rw [hkey]
    rw [if_pos rfl, hnone]

/-- C7: for every `BETWEEN` match of the bare or table-qualified pattern
in the normalized query text, the stage emits the per-match conditions in
match order; a match with both placeholders resolvable contributes
exactly one condition, with operator `BETWEEN` and exactly the two values
`[params[N-1], params[M-1]]` in source order; a match with either
placeholder unresolved contributes no condition. -/
theorem c7_between_exact (norm : List Char) (params : List Value) :
    (stageSimpleBetween norm params =
      (scanG simpleBetweenAt none norm).flatMap (emitSimpleBetween params)) ∧
    (stageTableBetween norm params =
      (scanG tableBetweenAt none norm).flatMap (emitTableBetween params)) ∧
    (∀ (m : List Char × Nat × Nat) (v1 v2 : Value),
      resolveParam params m.2.1 = some v1 → resolveParam params m.2.2 = some v2 →
      emitSimpleBetween params m =
        [{ table := none, column := lowerS m.1, operator := some (("BETWEEN").toList),
           values := [v1, v2] }]) ∧
    (∀ m : List Char × Nat × Nat,
      resolveParam params m.2.1 = none ∨ resolveParam params m.2.2 = none →
      emitSimpleBetween params m = []) ∧
    (∀ (m : List Char × List Char × Nat × Nat) (v1 v2 : Value),
      resolveParam params m.2.2.1 = some v1 → resolveParam params m.2.2.2 = some v2 →
      emitTableBetween params m =
        [{ table := some (lowerS m.1), column := lowerS m.2.1,
           operator := some (("BETWEEN").toList), values := [v1, v2] }]) ∧
    (∀ m : List Char × List Char × Nat × Nat,
      resolveParam params m.2.2.1 = none ∨ resolveParam params m.2.2.2 = none →
      emitTableBetween params m = []) := by
  refine ⟨?_, ?_, ?_, ?_, ?_, ?_⟩
  · unfold stageSimpleBetween
    rw [foldl_append_flatMap]
    simp
  · unfold stageTableBetween
    rw [foldl_append_flatMap]
    simp
  · intro m v1 v2 h1 h2
    unfold emitSimpleBetween
    rw [h1, h2]
  · intro m h
    unfold emitSimpleBetween
    rcases h with h | h
    · rw [h]
    · rw [h]
      cases resolveParam params m.2.1 <;> rfl
  · intro m v1 v2 h1 h2
    unfold emitTableBetween
    rw [h1, h2]
  · intro m h
    unfold emitTableBetween
    rcases h with h | h
    · rw [h]
    · rw [h]
      cases resolveParam params m.2.2.1 <;> rfl

theorem flatMap_ite_singleton {α β : Type} (p : α → Bool) (g : α → β) (l : List α) :
    (l.flatMap fun x => if p x then [g x] else []) = (l.filter p).map g := by
  induction l with
  | nil => rfl
  | cons x xs ih =>
    by_cases h : p x <;> simp [List.flatMap_cons, h, ih, List.filter_cons]

theorem flatMap_pure {α β : Type} (g : α → β) (l : List α) :
    (l.flatMap fun x => [g x]) = l.map g := by
  induction l with
  | nil => rfl
  | cons x xs ih => simp [List.flatMap_cons, ih]

/-- C4, amended: the string-literal pattern `table.col = 'text'` emits a
condition for every column name, but the integer-literal pattern
`table.col = 123` emits one only when the column name looks like an ID
column (`id`, or ending in `id`/`_id`); a qualified integer equality on
any other column is dropped, as the `t.status = 5` counterexample shows,
while the string form `t.status = 'active'` is captured. -/
theorem c4_amended :
    (∀ norm : List Char,
      stageLiteral norm =
        ((scanG literalAt none norm).filter (fun m => isIdColumn (lowerS m.2.1))).map
          (fun m => { table := some (lowerS m.1), column := lowerS m.2.1, operator := none,
                      values := [Value.scalar (Scalar.num (Int.ofNat m.2.2))] }) : Prop) ∧
    (∀ norm : List Char,
      stageStringLiteral norm =
        (scanG stringLiteralAt none norm).map
          (fun m => { table := some (lowerS m.1), column := lowerS m.2.1, operator := none,
                      values := [Value.scalar (Scalar.str m.2.2)] })) ∧
    extractIdConditions
        ((("SELECT * FROM t WHERE t.status = ").toList) ++ [sqc] ++ ("active").toList ++ [sqc])
        [] =
      [{ table := some (("t").toList), column := ("status").toList, operator := none,
         values := [vstr ("active")] }] := by
  refine ⟨?_, ?_, ?_⟩
  · intro norm
    rw [stageLiteral_flatMap, ← flatMap_ite_singleton]
    rfl
  · intro norm
    rw [stageStringLiteral_flatMap, ← flatMap_pure]
    rfl
  · decide

set_option maxHeartbeats 4000000 in
/-- C5, amended: on queries where the `NOT IN` group is not preceded by
other parenthesized `IN` text (so that the bare `IN` scan first matches
at the word `NOT` itself), the extractor emits — in addition to the
`NOT IN` condition for the real column — a spurious condition whose
column is the word `not`, with no operator property, carrying the same
resolved values; shown here for the scenario-B query
`SELECT * FROM orders WHERE status NOT IN ($1,$2,$3)` under every
parameter list resolving the three placeholders. -/
theorem c5_amended (v1 v2 v3 : Value) :
    extractIdConditions queryB [v1, v2, v3] =
      [{ table := none, column := ("not").toList, operator := none, values := [v1, v2, v3] },
       { table := none, column := ("status").toList, operator := some (("NOT IN").toList),
         values := [v1, v2, v3] }] := rfl

theorem append_dot_inj {s1 s2 c1 c2 : List Char} (hc1 : '.' ∉ c1) (hc2 : '.' ∉ c2)
    (h : s1 ++ '.' :: c1 = s2 ++ '.' :: c2) : s1 = s2 ∧ c1 = c2 := by
  induction s1 generalizing s2 with
  | nil =>
    cases s2 with
    | nil =>
      simp only [List.nil_append, List.cons.injEq] at h
      exact ⟨rfl, h.2⟩
    | cons d s2 =>
      simp only [List.nil_append, List.cons_append, List.cons.injEq] at h
      exact absurd (h.2 ▸ List.mem_append_right s2 (List.mem_cons_self '.' c2)) hc1
  | cons a s1 ih =>
    cases s2 with
    | nil =>
      simp only [List.cons_append, List.nil_append, List.cons.injEq] at h
      exact absurd (h.2.symm ▸ List.mem_append_right s1 (List.mem_cons_self '.' c1)) hc2
    | cons d s2 =>
      simp only [List.cons_append, List.cons.injEq] at h
      rcases ih h.2 with ⟨hs, hc⟩
      exact ⟨by rw [h.1, hs], hc⟩

/-- Two contributions with an explicit table and a dot-free column that
share the aggregation key share the table and the column. -/
theorem contribKey_inj {tc1 tc2 : Option (List Char) × Cond}
    (h1 : tc1.1.isSome) (h2 : tc2.1.isSome)
    (hd1 : '.' ∉ tc1.2.column) (hd2 : '.' ∉ tc2.2.column)
    (hk : contribKey tc1 = contribKey tc2) :
    tc1.1 = tc2.1 ∧ tc1.2.column = tc2.2.column := by
  rcases Option.isSome_iff_exists.mp h1 with ⟨t1, ht1⟩
  rcases Option.isSome_iff_exists.mp h2 with ⟨t2, ht2⟩
  unfold contribKey condKey at hk
  rw [ht1, ht2] at hk
  simp only [Option.getD_some] at hk
  rcases append_dot_inj hd1 hd2 hk with ⟨hs, hc⟩
  exact ⟨by rw [ht1, ht2, hs], hc⟩

/-- The semantic triple of an aggregated condition: table, column and the
value set. -/
def tripleOf (c : Cond) : Option (List Char) × List Char × Finset Value :=
  (c.table, c.column, c.values.toFinset)

theorem keyVals_perm {l1 l2 : List (Option (List Char) × Cond)}
    (h : l1.Perm l2) (k : List Char) : (keyVals l1 k).Perm (keyVals l2 k) :=
  h.flatMap_right _

/-- The mapped triples of the aggregated conditions, characterized
semantically by first contributions. -/
theorem mem_conditions_triple_iff (rs : List (List (List Char) × List Cond))
    (x : Option (List Char) × List Char × Finset Value) :
    x ∈ (aggregateResults rs).conditions.map tripleOf ↔
      ∃ k tc, firstContrib (sessionContribs rs) k = some tc ∧
        x = (tc.1, tc.2.column, (keyVals (sessionContribs rs) k).toFinset) := by
  rw [aggregateResults_conditions, List.map_map, List.mem_map]
  constructor
  · rintro ⟨p, hp, rfl⟩
    rcases mem_condMap_char _ p hp with ⟨⟨tc, hfc, htab, hcol⟩, _, hvals⟩
    refine ⟨p.1, tc, hfc, ?_⟩
    simp only [Function.comp_apply, tripleOf]
    rw [htab, hcol, hvals]
    have hperm : List.Perm (sortValues (List.foldl setAdd [] (keyVals (sessionContribs rs) p.1)))
        (List.foldl setAdd [] (keyVals (sessionContribs rs) p.1)) := List.perm_insertionSort _ _
    have hts : (sortValues (List.foldl setAdd [] (keyVals (sessionContribs rs) p.1))).toFinset =
        (List.foldl setAdd [] (keyVals (sessionContribs rs) p.1)).toFinset := by
      ext v
      simp [List.mem_toFinset, hperm.mem_iff]
    rw [hts, toFinset_foldl_setAdd]
    simp
  · rintro ⟨k, tc, hfc, rfl⟩
    have hlook : lookupKey ((sessionContribs rs).foldl mergeOne []) k =
        some { table := tc.1, column := tc.2.column,
               values := List.foldl setAdd [] (keyVals (sessionContribs rs) k) } := by
      rw [lookupKey_foldl_mergeOne]
      simp only [lookupKey]
      rw [hfc]
    refine ⟨(k, _), mem_of_lookupKey_some hlook, ?_⟩
    simp only [Function.comp_apply, tripleOf]
    have hperm : List.Perm (sortValues (List.foldl setAdd [] (keyVals (sessionContribs rs) k)))
        (List.foldl setAdd [] (keyVals (sessionContribs rs) k)) := List.perm_insertionSort _ _
    have hts : (sortValues (List.foldl setAdd [] (keyVals (sessionContribs rs) k))).toFinset =
        (List.foldl setAdd [] (keyVals (sessionContribs rs) k)).toFinset := by
      ext v
      simp [List.mem_toFinset, hperm.mem_iff]
    rw [hts, toFinset_foldl_setAdd]
    simp

theorem conditions_triple_nodup (rs : List (List (List Char) × List Cond)) :
    ((aggregateResults rs).conditions.map tripleOf).Nodup := by
  rw [aggregateResults_conditions, List.map_map]
  have hknd := condMap_keys_nodup (sessionContribs rs) [] (by simp)
  refine List.Nodup.map_on ?_ (List.Nodup.of_map _ hknd)
  intro p1 h1 p2 h2 heq
  simp only [Function.comp_apply, tripleOf, Prod.mk.injEq] at heq
  have hk1 := (mem_condMap_char _ p1 h1).2.1
  have hk2 := (mem_condMap_char _ p2 h2).2.1
  have hkeq : p1.1 = p2.1 := by
    rw [← hk1, ← hk2, heq.1, heq.2.1]
  have hl1 := lookupKey_some_of_mem hknd h1
  have hl2 := lookupKey_some_of_mem hknd h2
  rw [hkeq] at hl1
  rw [hl2] at hl1
  have : p1.2 = p2.2 := (Option.some.injEq _ _).mp hl1.symm
  calc p1 = (p1.1, p1.2) := rfl
    _ = (p2.1, p2.2) := by rw [hkeq, this]
    _ = p2 := rfl

theorem contribs_isSome {rs : List (List (List Char) × List Cond)}
    (hexp : ∀ r ∈ rs, ∀ c ∈ r.2, (c.table).isSome) :
    ∀ tc ∈ sessionContribs rs, tc.1.isSome := by
  intro tc htc
  rcases List.mem_flatMap.mp htc with ⟨r, hr, htc2⟩
  rcases List.mem_map.mp htc2 with ⟨c, hc, rfl⟩
  rcases Option.isSome_iff_exists.mp (hexp r hr c hc) with ⟨t, ht⟩
  simp [inferTable, ht]

theorem contribs_dotfree {rs : List (List (List Char) × List Cond)}
    (hdot : ∀ r ∈ rs, ∀ c ∈ r.2, '.' ∉ c.column) :
    ∀ tc ∈ sessionContribs rs, '.' ∉ tc.2.column := by
  intro tc htc
  rcases List.mem_flatMap.mp htc with ⟨r, hr, htc2⟩
  rcases List.mem_map.mp htc2 with ⟨c, hc, rfl⟩
  exact hdot r hr c hc

theorem triple_exists_transfer {l1 l2 : List (Option (List Char) × Cond)}
    (hcp : l1.Perm l2)
    (hexp1 : ∀ tc ∈ l1, tc.1.isSome) (hdot1 : ∀ tc ∈ l1, '.' ∉ tc.2.column)
    (x : Option (List Char) × List Char × Finset Value)
    (h : ∃ k tc, firstContrib l1 k = some tc ∧
      x = (tc.1, tc.2.column, (keyVals l1 k).toFinset)) :
    ∃ k tc, firstContrib l2 k = some tc ∧
      x = (tc.1, tc.2.column, (keyVals l2 k).toFinset) := by
  rcases h with ⟨k, tc, hfc, rfl⟩
  have htc1 : tc ∈ l1 := List.mem_of_find?_eq_some hfc
  have hkey : contribKey tc = k := by
    have := List.find?_some hfc
    simpa using this
  have hsome2 : (firstContrib l2 k).isSome := by
    unfold firstContrib
    rw [List.find?_isSome]
    exact ⟨tc, hcp.mem_iff.mp htc1, by simp [hkey]⟩
  rcases Option.isSome_iff_exists.mp hsome2 with ⟨tc', hfc2⟩
  have htc2 : tc' ∈ l1 := hcp.mem_iff.mpr (List.mem_of_find?_eq_some hfc2)
  have hkey' : contribKey tc' = k := by
    have := List.find?_some hfc2
    simpa using this
  have hagree := contribKey_inj (hexp1 tc htc1) (hexp1 tc' htc2)
    (hdot1 tc htc1) (hdot1 tc' htc2) (hkey.trans hkey'.symm)
  have hkv : (keyVals l1 k).toFinset = (keyVals l2 k).toFinset := by
    ext v
    simp [List.mem_toFinset, (keyVals_perm hcp k).mem_iff]
  exact ⟨k, tc', hfc2, by rw [hagree.1, hagree.2, hkv]⟩

/-- C9: session aggregation is order-insensitive.  For per-query results
in which every condition carries an explicit table (and, as every
extractor-produced condition does, a dot-free column name), aggregating a
permuted session yields the same set of aggregated conditions — same
(table, column) keys and same value set per key, ignoring internal
ordering — and the identical sorted tables list. -/
theorem c9_order_insensitive (rs1 rs2 : List (List (List Char) × List Cond))
    (hperm : rs1.Perm rs2)
    (hexp : ∀ r ∈ rs1, ∀ c ∈ r.2, (c.table).isSome)
    (hdot : ∀ r ∈ rs1, ∀ c ∈ r.2, '.' ∉ c.column) :
    ((aggregateResults rs1).conditions.map tripleOf).Perm
      ((aggregateResults rs2).conditions.map tripleOf) ∧
    (aggregateResults rs1).tables = (aggregateResults rs2).tables := by
  have hcp : (sessionContribs rs1).Perm (sessionContribs rs2) := hperm.flatMap_right _
  have hexp1 := contribs_isSome hexp
  have hdot1 := contribs_dotfree hdot
  have hexp2 : ∀ tc ∈ sessionContribs rs2, tc.1.isSome :=
    fun tc htc => hexp1 tc (hcp.mem_iff.mpr htc)
  have hdot2 : ∀ tc ∈ sessionContribs rs2, '.' ∉ tc.2.column :=
    fun tc htc => hdot1 tc (hcp.mem_iff.mpr htc)
  constructor
  · rw [List.perm_ext_iff_of_nodup (conditions_triple_nodup rs1) (conditions_triple_nodup rs2)]
    intro x
    rw [mem_conditions_triple_iff, mem_conditions_triple_iff]
    exact ⟨triple_exists_transfer hcp hexp1 hdot1 x,
           triple_exists_transfer hcp.symm hexp2 hdot2 x⟩
  · rw [aggregateResults_tables, aggregateResults_tables]
    have hfp : (rs1.flatMap Prod.fst).Perm (rs2.flatMap Prod.fst) := hperm.flatMap_right _
    have hs : ((rs1.flatMap Prod.fst).foldl setAdd []).Perm
        ((rs2.flatMap Prod.fst).foldl setAdd []) := by
      rw [List.perm_ext_iff_of_nodup (nodup_foldl_setAdd _ List.nodup_nil)
        (nodup_foldl_setAdd _ List.nodup_nil)]
      intro y
      rw [mem_foldl_setAdd, mem_foldl_setAdd]
      simp [hfp.mem_iff]
    exact List.eq_of_perm_of_sorted
      ((List.perm_insertionSort strLe _).trans
        (hs.trans (List.perm_insertionSort strLe _).symm))
      (List.sorted_insertionSort strLe _)
      (List.sorted_insertionSort strLe _)

/-- Whether the case-insensitive text `from` occurs as a substring. -/
def containsFromCI : List Char → Bool
  | [] => false
  | c :: cs =>
    decide (lowerS ((c :: cs).take 4) = ("from").toList) || containsFromCI cs

/-- Whether a character list is one identifier
(`[a-zA-Z_][a-zA-Z0-9_]*`). -/
def isIdentList (t : List Char) : Bool :=
  match t with
  | [] => false
  | c :: cs => isIdentStart c && cs.all isWordChar

/-- Whether the text after a captured identifier cannot extend the
capture: empty, or starting with neither a word character nor a dot. -/
def okAfter (b : List Char) : Bool :=
  match b with
  | [] => true
  | c :: _ => !isWordChar c && c != '.'

/-- The character in front of the position directly behind `a`, when the
scan entered `a` with `prev` in front of it. -/
def lastPrev (a : List Char) (prev : Option Char) : Option Char :=
  match a.getLast? with
  | some c => some c
  | none => prev

theorem lastPrev_cons (c : Char) (a : List Char) (prev : Option Char) :
    lastPrev (c :: a) prev = lastPrev a (some c) := by
  cases a with
  | nil => simp [lastPrev]
  | cons d a =>
    unfold lastPrev
    rw [List.getLast?_cons_cons]
    cases h : (d :: a).getLast? with
    | none => simp at h
    | some e => rfl

theorem identStart_not_space {c : Char} (h : isIdentStart c = true) :
    isJsSpace c = false := by
  by_contra hsp
  rw [Bool.not_eq_false] at hsp
  have hc : c = ' ' ∨ c = '\t' ∨ c = '\n' ∨ c = '\x0b' ∨ c = '\x0c' ∨ c = '\r' := by
    simpa [isJsSpace, or_assoc] using hsp
  rcases hc with rfl | rfl | rfl | rfl | rfl | rfl <;> revert h <;> decide

theorem identStart_word {c : Char} (h : isIdentStart c = true) :
    isWordChar c = true := by
  simp only [isIdentStart, Bool.or_eq_true, Bool.and_eq_true, decide_eq_true_eq] at h
  simp only [isWordChar, Bool.or_eq_true, Bool.and_eq_true, decide_eq_true_eq]
  tauto

theorem takeWhileSplit_exact (p : Char → Bool) (xs ys : List Char)
    (h1 : ∀ x ∈ xs, p x = true)
    (h2 : ys = [] ∨ ∃ c cs, ys = c :: cs ∧ p c = false) :
    takeWhileSplit p (xs ++ ys) = (xs, ys) := by
  induction xs with
  | nil =>
    rcases h2 with rfl | ⟨c, cs, rfl, hc⟩
    · rfl
    · simp [takeWhileSplit, hc]
  | cons x xs ih =>
    have hx : p x = true := h1 x (List.mem_cons_self x xs)
    have ihh := ih (fun y hy => h1 y (List.mem_cons_of_mem x hy))
    simp only [List.cons_append, takeWhileSplit, hx, if_pos, List.append_eq, ihh]

theorem eatLitCI_from_shape {s r : List Char}
    (h : eatLitCI (("from").toList) s = some r) :
    ∃ c1 c2 c3 c4 s', s = c1 :: c2 :: c3 :: c4 :: s' ∧
      lowerC c1 = 'f' ∧ lowerC c2 = 'r' ∧ lowerC c3 = 'o' ∧ lowerC c4 = 'm' ∧ r = s' := by
  match s with
  | [] => simp [eatLitCI] at h
  | [c1] =>
    simp only [show ("from").toList = ['f', 'r', 'o', 'm'] from rfl, eatLitCI] at h
    split at h <;> simp_all [eatLitCI]
  | [c1, c2] =>
    simp only [show ("from").toList = ['f', 'r', 'o', 'm'] from rfl, eatLitCI] at h
    split at h <;> [skip; simp_all] <;> split at h <;> simp_all [eatLitCI]
  | [c1, c2, c3] =>
    simp only [show ("from").toList = ['f', 'r', 'o', 'm'] from rfl, eatLitCI] at h
    split at h <;> [skip; simp_all] <;> split at h <;> [skip; simp_all] <;>
      split at h <;> simp_all [eatLitCI]
  | c1 :: c2 :: c3 :: c4 :: s' =>
    simp only [show ("from").toList = ['f', 'r', 'o', 'm'] from rfl, eatLitCI] at h
    split at h <;> rename_i h1
    · split at h <;> rename_i h2
      · split at h <;> rename_i h3
        · split at h <;> rename_i h4
          · refine ⟨c1, c2, c3, c4, s', rfl, ?_, ?_, ?_, ?_, ?_⟩
            · exact h1.trans (by decide)
            · exact h2.trans (by decide)
            · exact h3.trans (by decide)
            · exact h4.trans (by decide)
            · exact ((Option.some.injEq _ _).mp h).symm
          · simp at h
        · simp at h
      · simp at h
    · simp at h

theorem tableNameAt_from_lit {prev : Option Char} {s : List Char}
    {x : List Char × List Char}
    (h : tableNameAt [("from").toList] prev s = some x) :
    ∃ r, eatLitCI (("from").toList) s = some r := by
  cases hl : eatLitCI (("from").toList) s with
  | some r => exact ⟨r, rfl⟩
  | none =>
    exfalso
    unfold tableNameAt at h
    by_cases hw : wordBoundary prev = true
    · rw [if_pos hw] at h
      simp only [eatKeywordSeq, hl] at h
      exact Option.noConfusion h
    · rw [if_neg hw] at h
      exact Option.noConfusion h

theorem fromMatch_none (c : Char) (a' rs : List Char) (prev : Option Char)
    (hfa : containsFromCI (c :: a') = false) :
    tableNameAt [("from").toList] prev (c :: (a' ++ 'F' :: rs)) = none := by
  by_contra hne
  rcases Option.ne_none_iff_exists'.mp hne with ⟨x, hx⟩
  rcases tableNameAt_from_lit hx with ⟨r, hr⟩
  have heq0 : c :: (a' ++ 'F' :: rs) = c :: (a' ++ 'F' :: rs) := rfl
  rcases eatLitCI_from_shape hr with ⟨c1, c2, c3, c4, s', heq, h1, h2, h3, h4, hrest⟩
  cases a' with
  | nil =>
    simp only [List.nil_append, List.cons.injEq] at heq
    rw [← heq.2.1] at h2
    revert h2
    decide
  | cons d a2 =>
    cases a2 with
    | nil =>
      simp only [List.cons_append, List.nil_append, List.cons.injEq] at heq
      rw [← heq.2.2.1] at h3
      revert h3
      decide
    | cons e a3 =>
      cases a3 with
      | nil =>
        simp only [List.cons_append, List.nil_append, List.cons.injEq] at heq
        rw [← heq.2.2.2.1] at h4
        revert h4
        decide
      | cons f a4 =>
        simp only [containsFromCI, Bool.or_eq_false_iff,
          decide_eq_false_iff_not] at hfa
        refine absurd ?_ hfa.1
        simp only [List.cons_append, List.cons.injEq] at heq
        rw [List.take, List.take, List.take, List.take]
        simp only [lowerS, List.map_cons, List.map_nil]
        rw [heq.1, heq.2.1, heq.2.2.1, heq.2.2.2.1, h1, h2, h3, h4]
        simp only [List.take_zero, List.map_nil]
        rfl

theorem scanGAux_none_step {α : Type} (m : Option Char → List Char → Option (α × List Char))
    (fuel : Nat) (prev : Option Char) (c : Char) (cs : List Char)
    (h : m prev (c :: cs) = none) :
    scanGAux m (fuel + 1) prev (c :: cs) = scanGAux m fuel (some c) cs := by
  simp only [scanGAux, h]

theorem scanGAux_some_head {α : Type} (m : Option Char → List Char → Option (α × List Char))
    (fuel : Nat) (prev : Option Char) (c : Char) (cs : List Char) (a : α) (rest : List Char)
    (h : m prev (c :: cs) = some (a, rest)) :
    ∃ l, scanGAux m (fuel + 1) prev (c :: cs) = a :: l := by
  refine ⟨scanGAux m fuel ((c :: cs)[((c :: cs).length - rest.length) - 1]?)
    ((c :: cs).drop (max ((c :: cs).length - rest.length) 1)), ?_⟩
  simp only [scanGAux, h]

theorem fromScan_skip (rs : List Char) (a : List Char) (prev : Option Char)
    (hfa : containsFromCI a = false) :
    scanGAux (tableNameAt [("from").toList]) (a ++ 'F' :: rs).length prev (a ++ 'F' :: rs) =
      scanGAux (tableNameAt [("from").toList]) ('F' :: rs).length (lastPrev a prev)
        ('F' :: rs) := by
  induction a generalizing prev with
  | nil => rfl
  | cons c a' ih =>
    have hfa' : containsFromCI a' = false := by
      simp only [containsFromCI, Bool.or_eq_false_iff] at hfa
      exact hfa.2
    rw [List.cons_append,
      show (c :: (a' ++ 'F' :: rs)).length = (a' ++ 'F' :: rs).length + 1 from by simp,
      scanGAux_none_step _ _ _ _ _ (fromMatch_none c a' rs prev hfa),
      ih (some c) hfa', lastPrev_cons]

theorem takeQualIdent_exact (c : Char) (t' b : List Char)
    (hcs : isIdentStart c = true) (htw : ∀ x ∈ t', isWordChar x = true)
    (hb : okAfter b = true) :
    takeQualIdent ((c :: t') ++ b) = some (c :: t', b) := by
  have hsplit : takeWhileSplit isWordChar (t' ++ b) = (t', b) := by
    refine takeWhileSplit_exact _ _ _ htw ?_
    cases b with
    | nil => exact Or.inl rfl
    | cons c0 bs =>
      refine Or.inr ⟨c0, bs, rfl, ?_⟩
      simp only [okAfter, Bool.and_eq_true, Bool.not_eq_true'] at hb
      exact hb.1
  have hti : takeIdent ((c :: t') ++ b) = some (c :: t', b) := by
    unfold takeIdent
    rw [List.cons_append]
    simp [hcs, hsplit]
  cases b with
  | nil =>
    unfold takeQualIdent
    rw [hti]
  | cons c0 bs =>
    have hdot : c0 ≠ '.' := by
      simp only [okAfter, Bool.and_eq_true, bne_iff_ne] at hb
      exact hb.2
    unfold takeQualIdent
    simp only [hti]
    split
    · rename_i r2 heq
      injection heq with h1 h2
      exact absurd h1 hdot
    · rfl

theorem fromMatch_head (c : Char) (t' b : List Char) (prev : Option Char)
    (hw : wordBoundary prev = true)
    (hcs : isIdentStart c = true) (htw : ∀ x ∈ t', isWordChar x = true)
    (hb : okAfter b = true) :
    tableNameAt [("from").toList] prev
      ('F' :: 'R' :: 'O' :: 'M' :: ' ' :: ((c :: t') ++ b)) = some (c :: t', b) := by
  have hc : isJsSpace c = false := identStart_not_space hcs
  have hx : takeWhileSplit isJsSpace (c :: (t' ++ b)) = ([], c :: (t' ++ b)) := by
    unfold takeWhileSplit
    rw [if_neg]
    intro hh
    rw [hc] at hh
    exact Bool.noConfusion hh
  have hsp1 : isJsSpace ' ' = true := rfl
  have hsp : eatSpaces1 (' ' :: ((c :: t') ++ b)) = some ((c :: t') ++ b) := by
    simp [eatSpaces1, takeWhile1, hsp1, hx]
  have hlit : eatLitCI (("from").toList)
      ('F' :: 'R' :: 'O' :: 'M' :: ' ' :: ((c :: t') ++ b)) =
      some (' ' :: ((c :: t') ++ b)) := rfl
  have hkw : eatKeywordSeq [("from").toList]
      ('F' :: 'R' :: 'O' :: 'M' :: ' ' :: ((c :: t') ++ b)) = some ((c :: t') ++ b) := by
    simp only [eatKeywordSeq, hlit, hsp]
  unfold tableNameAt
  rw [if_pos hw, hkw]
  exact takeQualIdent_exact c t' b hcs htw hb

theorem tblCollect_eq (acc : List (List Char)) (m : List Char) :
    tblCollect acc m =
      if isKeyword (lowerS m) then acc else setAdd acc (lowerS m) := rfl

theorem mem_foldl_tblCollect_of_acc (ms : List (List Char)) (acc : List (List Char))
    (x : List Char) (hx : x ∈ acc) : x ∈ ms.foldl tblCollect acc := by
  induction ms generalizing acc with
  | nil => exact hx
  | cons m ms ih =>
    apply ih
    rw [tblCollect_eq]
    split
    · exact hx
    · exact mem_setAdd.mpr (Or.inl hx)

theorem mem_foldl_tblCollect (ms : List (List Char)) (acc : List (List Char))
    (m : List Char) (hm : m ∈ ms) (hk : isKeyword (lowerS m) = false) :
    lowerS m ∈ ms.foldl tblCollect acc := by
  induction ms generalizing acc with
  | nil => cases hm
  | cons m0 ms ih =>
    rcases List.mem_cons.mp hm with rfl | hm'
    · rw [List.foldl_cons]
      apply mem_foldl_tblCollect_of_acc
      rw [tblCollect_eq,
        if_neg (show ¬isKeyword (lowerS m) = true from by simp [hk])]
      exact mem_setAdd.mpr (Or.inr rfl)
    · exact ih _ hm'

theorem foldl_tblCollect_nonkw (ms : List (List Char)) (acc : List (List Char))
    (hacc : ∀ x ∈ acc, isKeyword x = false) :
    ∀ x ∈ ms.foldl tblCollect acc, isKeyword x = false := by
  induction ms generalizing acc with
  | nil => exact hacc
  | cons m ms ih =>
    apply ih
    intro x hx
    rw [tblCollect_eq] at hx
    split at hx
    · exact hacc x hx
    · rename_i hnk
      rcases mem_setAdd.mp hx with h | rfl
      · exact hacc x h
      · exact Bool.eq_false_iff.mpr hnk

theorem fromScan_mem (a : List Char) (c : Char) (t' b : List Char)
    (hfa : containsFromCI a = false)
    (hwb : wordBoundary (lastPrev a none) = true)
    (hcs : isIdentStart c = true) (htw : ∀ x ∈ t', isWordChar x = true)
    (hb : okAfter b = true) :
    ∃ l, scanG (tableNameAt [("from").toList]) none
      (a ++ 'F' :: 'R' :: 'O' :: 'M' :: ' ' :: ((c :: t') ++ b)) = (c :: t') :: l := by
  unfold scanG
  rw [fromScan_skip ('R' :: 'O' :: 'M' :: ' ' :: ((c :: t') ++ b)) a none hfa,
    show ('F' :: 'R' :: 'O' :: 'M' :: ' ' :: ((c :: t') ++ b)).length =
      ('R' :: 'O' :: 'M' :: ' ' :: ((c :: t') ++ b)).length + 1 from by simp]
  exact scanGAux_some_head _ _ _ _ _ _ _
    (fromMatch_head c t' b (lastPrev a none) hwb hcs htw hb)

/-- C6, amended: the table extractor never outputs a reserved keyword
(that part of the claim holds for every query); and the positive part
holds only in guarded form: when the query text (already in normalized
whitespace form) is `a ++ "FROM " ++ t ++ b` where no case-insensitive
occurrence of `from` lies in `a`, the position after `a` is at a word
boundary, `t` is an identifier whose lower-casing is not a reserved
keyword, and `b` cannot extend the identifier capture, then the
lower-cased `t` is in the output.  The unguarded original claim is
refuted separately: a reserved word after `FROM` is filtered out. -/
theorem c6_amended (q : List Char) :
    (∀ t ∈ extractTableNames q, isKeyword t = false) ∧
    (∀ (a : List Char) (c : Char) (t' b : List Char),
      q = a ++ 'F' :: 'R' :: 'O' :: 'M' :: ' ' :: ((c :: t') ++ b) →
      normalizeWs q = q →
      containsFromCI a = false →
      wordBoundary (lastPrev a none) = true →
      isIdentStart c = true →
      (∀ x ∈ t', isWordChar x = true) →
      okAfter b = true →
      isKeyword (lowerS (c :: t')) = false →
      lowerS (c :: t') ∈ extractTableNames q) := by
  constructor
  · intro t ht
    exact foldl_tblCollect_nonkw _ _
      (fun x hx => absurd hx (List.not_mem_nil x)) t ht
  · intro a c t' b hq hnorm hfa hwb hcs htw hb hk
    subst hq
    unfold extractTableNames
    rw [hnorm]
    apply mem_foldl_tblCollect
    · unfold tableRefMatches
      rcases fromScan_mem a c t' b hfa hwb hcs htw hb with ⟨l, hl⟩
      apply List.mem_append_left
      apply List.mem_append_left
      apply List.mem_append_left
      apply List.mem_append_left
      rw [hl]
      exact List.mem_cons_self _ _
    · exact hk

theorem c6_amended_witness :
    isKeyword (("users").toList) = false ∧
    ("users").toList ∈ extractTableNames (("SELECT x FROM Users WHERE id").toList) := by
  have h2 : lowerS ('U' :: ("sers").toList) ∈
      extractTableNames (("SELECT x FROM Users WHERE id").toList) :=
    (c6_amended (("SELECT x FROM Users WHERE id").toList)).2
      (("SELECT x ").toList) 'U' (("sers").toList) ((" WHERE id").toList)
      (by decide) (by decide) (by decide) (by decide) (by decide) (by decide)
      (by decide) (by decide)
  exact ⟨(c6_amended (("SELECT x FROM Users WHERE id").toList)).1 (("users").toList) h2, h2⟩

theorem c1_amended_witness :
    ({ table := some (("users").toList), column := ("id").toList, operator := none,
       values := [Value.scalar (Scalar.num 42)] } : Cond).operator = none ∧
    ({ table := some (("users").toList), column := ("id").toList, operator := none,
       values := [Value.scalar (Scalar.num 42)] } : Cond).values.Nodup ∧
    ({ table := some (("users").toList), column := ("id").toList, operator := none,
       values := [Value.scalar (Scalar.num 42)] } : Cond).values.toFinset =
      (keyVals (sessionContribs (sessionOf [{ query := queryA, params := paramsA }]))
        (condKey (some (("users").toList)) (("id").toList))).toFinset :=
  (c1_amended [{ query := queryA, params := paramsA }]).2
    { table := some (("users").toList), column := ("id").toList, operator := none,
      values := [Value.scalar (Scalar.num 42)] }
    (by decide)

theorem c7_between_exact_witness :
    emitSimpleBetween [vnum 1, vnum 2] ((("col").toList), 1, 2) =
      [{ table := none, column := ("col").toList,
         operator := some (("BETWEEN").toList), values := [vnum 1, vnum 2] }] ∧
    emitSimpleBetween [vnum 1] ((("col").toList), 1, 2) = [] :=
  ⟨(c7_between_exact [] [vnum 1, vnum 2]).2.2.1 ((("col").toList), 1, 2)
      (vnum 1) (vnum 2) (by decide) (by decide),
   (c7_between_exact [] [vnum 1]).2.2.2.1 ((("col").toList), 1, 2) (Or.inr (by decide))⟩

/-- The no-table condition exercised by the C10 witness. -/
def condNoTable : Cond :=
  { table := none, column := ("x").toList, operator := none, values := [vnum 1] }

/-- The explicit-table condition exercised by the C10 witness. -/
def condWithTable : Cond :=
  { table := some (("t").toList), column := ("x").toList, operator := none,
    values := [vnum 1] }

theorem c10_null_table_skipped_witness :
    renderEntry condNoTable = [] ∧
    renderEntry condWithTable =
      [{ table := ("t").toList, condition := renderCond condWithTable }] ∧
    inferTable [] condNoTable = none ∧
    lookupKey (mergeCond [] [] condNoTable) (condKey none (("x").toList)) =
      some { table := none, column := ("x").toList,
             values := List.foldl setAdd [] [vnum 1] } :=
  ⟨c10_null_table_skipped.2.1 condNoTable rfl,
   c10_null_table_skipped.2.2.1 condWithTable (("t").toList) rfl,
   c10_null_table_skipped.2.2.2.1 condNoTable rfl,
   c10_null_table_skipped.2.2.2.2 [] condNoTable rfl rfl⟩

/-- First per-query result of the C9 witness session. -/
def resT : List (List Char) × List Cond :=
  ([("t").toList],
   [{ table := some (("t").toList), column := ("a").toList, operator := none,
      values := [vnum 1] }])

/-- Second per-query result of the C9 witness session. -/
def resU : List (List Char) × List Cond :=
  ([("u").toList],
   [{ table := some (("u").toList), column := ("b").toList, operator := none,
      values := [vnum 2] }])

theorem c9_order_insensitive_witness :
    (((aggregateResults [resT, resU]).conditions.map tripleOf).Perm
      ((aggregateResults [resU, resT]).conditions.map tripleOf)) ∧
    (aggregateResults [resT, resU]).tables = (aggregateResults [resU, resT]).tables :=
  c9_order_insensitive [resT, resU] [resU, resT] (List.Perm.swap _ _ _)
    (by decide) (by decide)
